import Mathlib

/-
  Verification of the claude-chill PTY proxy against its specification.

  The development shallowly embeds:
  - the terminal query-response filter (src/crates/claude-chill/src/escape_filter.rs),
  - the whitelist history filter classification (src/crates/claude-chill/src/history_filter.rs),
    over a model of the external termwiz escape parser,
  - the proxy orchestrator (src/crates/claude-chill/src/proxy.rs),
  - the line history buffer (modelled from the spec, the source file is not provided).

  Bytes are Nat values below 256; byte strings are List Nat.
-/

set_option maxHeartbeats 1000000

/-! # Wire-level constants

Modelled from the spec: escape_sequences.rs is not among the provided sources; the
spec gives the bit-exact byte tables in section 6. -/

def SYNC_START : List Nat := [27, 80, 61, 49, 115, 27, 92]

def SYNC_END : List Nat := [27, 80, 61, 50, 115, 27, 92]

def CLEAR_SCREEN : List Nat := [27, 91, 50, 74]

def CURSOR_HOME : List Nat := [27, 91, 72]

def ALT_SCREEN_ENTER : List Nat := [27, 91, 63, 49, 48, 52, 57, 104]

def ALT_SCREEN_EXIT : List Nat := [27, 91, 63, 49, 48, 52, 57, 108]

def ALT_SCREEN_ENTER_LEGACY : List Nat := [27, 91, 63, 52, 55, 104]

def ALT_SCREEN_EXIT_LEGACY : List Nat := [27, 91, 63, 52, 55, 108]

/-! # Byte-string helpers (memmem-style search, prefix tests) -/

/-- Test whether `p` leads (is an initial segment of) `l`, as Rust starts_with. -/
def leadsWith (p l : List Nat) : Bool := decide (l.take p.length = p)

/-- First index at which `needle` occurs in `hay`, as memmem::Finder::find. -/
def findSub (needle : List Nat) : List Nat → Option Nat
  | [] => if needle = [] then some 0 else none
  | b :: rest =>
      if leadsWith needle (b :: rest) then some 0
      else (findSub needle rest).map (· + 1)

/-- Whether `needle` occurs somewhere in `hay`. -/
def containsSeq (needle hay : List Nat) : Bool := (findSub needle hay).isSome

/-- ASCII decimal digit test. -/
def isDigit (b : Nat) : Bool := 48 ≤ b && b ≤ 57

/-- Value of a decimal digit string (most significant digit first). -/
def natOfDigits (ds : List Nat) : Nat := ds.foldl (fun a b => a * 10 + (b - 48)) 0

/-- Rust str::parse into u32: digits only, nonempty, value below 2^32.
For a pure digit string the intermediate accumulator never exceeds the final
value, so checking the final value against 2^32 models the overflow error. -/
def parseU32 (ds : List Nat) : Option Nat :=
  if ds = [] then none
  else if ds.all isDigit then
    if natOfDigits ds < 4294967296 then some (natOfDigits ds) else none
  else none

/-! # Query-response escape filter (escape_filter.rs)

A byte-level state machine with a pending buffer. Translated arm by arm from
TerminalQueryFilter::filter. -/

inductive FilterState where
  | normal | escape | csi | csiParam | csiParamDollar
  | csiGt | csiGtParam | csiEq
  | csiQuestion | csiQuestionParam | csiQuestionParamDollar
  | osc | oscParam | oscSemicolon | oscQuery | oscQuerySt
  | dcs | dcsCollect | dcsEscape
  deriving DecidableEq, Repr

structure QFilter where
  state : FilterState
  pending : List Nat
  deriving DecidableEq, Repr

def initQ : QFilter := ⟨FilterState.normal, []⟩

/-- is_device_status_query from escape_filter.rs: pending like ESC [ 5 n or ESC [ 6 n. -/
def isDeviceStatusQuery (pending : List Nat) : Bool :=
  if pending.length < 4 then false
  else
    match parseU32 ((pending.drop 2).dropLast) with
    | some v => v = 5 || v = 6
    | none => false

/-- is_window_query from escape_filter.rs: ESC [ Ps t with decisive first parameter. -/
def isWindowQuery (pending : List Nat) : Bool :=
  if pending.length < 4 then false
  else
    match parseU32 (((pending.drop 2).dropLast).takeWhile (fun b => b ≠ 59)) with
    | some v =>
        v = 11 || v = 13 || v = 14 || v = 15 || v = 16 || v = 18 || v = 19 || v = 20 || v = 21
    | none => false

/-- is_dcs_query from escape_filter.rs: pending starts ESC P then a dollar or plus. -/
def isDcsQuery (pending : List Nat) : Bool :=
  if pending.length < 4 then false
  else
    decide (3 ≤ pending.length) &&
      decide (pending.take 2 = [27, 80]) &&
      (decide (pending.get? 2 = some 36) || decide (pending.get? 2 = some 43))

/-- One byte of TerminalQueryFilter::filter: new filter and the bytes emitted now. -/
def qstep (f : QFilter) (b : Nat) : QFilter × List Nat :=
  match f.state with
  | .normal =>
      if b = 27 then (⟨.escape, [27]⟩, [])
      else (⟨.normal, f.pending⟩, [b])
  | .escape =>
      let p := f.pending ++ [b]
      if b = 91 then (⟨.csi, p⟩, [])
      else if b = 93 then (⟨.osc, p⟩, [])
      else if b = 80 then (⟨.dcs, p⟩, [])
      else (⟨.normal, []⟩, p)
  | .csi =>
      let p := f.pending ++ [b]
      if b = 62 then (⟨.csiGt, p⟩, [])
      else if b = 61 then (⟨.csiEq, p⟩, [])
      else if b = 63 then (⟨.csiQuestion, p⟩, [])
      else if b = 99 then (⟨.normal, []⟩, [])
      else if isDigit b then (⟨.csiParam, p⟩, [])
      else (⟨.normal, []⟩, p)
  | .csiParam =>
      let p := f.pending ++ [b]
      if isDigit b || b = 59 then (⟨.csiParam, p⟩, [])
      else if b = 99 then (⟨.normal, []⟩, [])
      else if b = 110 then
        if isDeviceStatusQuery p then (⟨.normal, []⟩, []) else (⟨.normal, []⟩, p)
      else if b = 116 then
        if isWindowQuery p then (⟨.normal, []⟩, []) else (⟨.normal, []⟩, p)
      else if b = 36 then (⟨.csiParamDollar, p⟩, [])
      else (⟨.normal, []⟩, p)
  | .csiGt =>
      let p := f.pending ++ [b]
      if b = 99 then (⟨.normal, []⟩, [])
      else if b = 113 then (⟨.normal, []⟩, [])
      else if isDigit b then (⟨.csiGtParam, p⟩, [])
      else (⟨.normal, []⟩, p)
  | .csiGtParam =>
      let p := f.pending ++ [b]
      if isDigit b then (⟨.csiGtParam, p⟩, [])
      else if b = 99 then (⟨.normal, []⟩, [])
      else (⟨.normal, []⟩, p)
  | .csiEq =>
      let p := f.pending ++ [b]
      if b = 99 then (⟨.normal, []⟩, [])
      else (⟨.normal, []⟩, p)
  | .csiQuestion =>
      let p := f.pending ++ [b]
      if b = 117 then (⟨.normal, []⟩, [])
      else if isDigit b then (⟨.csiQuestionParam, p⟩, [])
      else (⟨.normal, []⟩, p)
  | .csiQuestionParam =>
      let p := f.pending ++ [b]
      if isDigit b || b = 59 then (⟨.csiQuestionParam, p⟩, [])
      else if b = 110 then (⟨.normal, []⟩, [])
      else if b = 117 then (⟨.normal, []⟩, [])
      else if b = 36 then (⟨.csiQuestionParamDollar, p⟩, [])
      else (⟨.normal, []⟩, p)
  | .osc =>
      let p := f.pending ++ [b]
      if isDigit b then (⟨.oscParam, p⟩, [])
      else (⟨.normal, []⟩, p)
  | .oscParam =>
      let p := f.pending ++ [b]
      if isDigit b then (⟨.oscParam, p⟩, [])
      else if b = 59 then (⟨.oscSemicolon, p⟩, [])
      else (⟨.normal, []⟩, p)
  | .oscSemicolon =>
      let p := f.pending ++ [b]
      if b = 63 then (⟨.oscQuery, p⟩, [])
      else (⟨.normal, []⟩, p)
  | .oscQuery =>
      let p := f.pending ++ [b]
      if b = 7 then (⟨.normal, []⟩, [])
      else if b = 27 then (⟨.oscQuerySt, p⟩, [])
      else (⟨.normal, []⟩, p)
  | .oscQuerySt =>
      let p := f.pending ++ [b]
      if b = 92 then (⟨.normal, []⟩, [])
      else (⟨.normal, []⟩, p)
  | .csiParamDollar =>
      let p := f.pending ++ [b]
      if b = 112 then (⟨.normal, []⟩, [])
      else (⟨.normal, []⟩, p)
  | .csiQuestionParamDollar =>
      let p := f.pending ++ [b]
      if b = 112 then (⟨.normal, []⟩, [])
      else (⟨.normal, []⟩, p)
  | .dcs =>
      let p := f.pending ++ [b]
      if b = 36 || b = 43 then (⟨.dcsCollect, p⟩, [])
      else if b = 27 then (⟨.dcsEscape, p⟩, [])
      else (⟨.dcsCollect, p⟩, [])
  | .dcsCollect =>
      let p := f.pending ++ [b]
      if b = 27 then (⟨.dcsEscape, p⟩, []) else (⟨.dcsCollect, p⟩, [])
  | .dcsEscape =>
      let p := f.pending ++ [b]
      if b = 92 then
        if isDcsQuery p then (⟨.normal, []⟩, []) else (⟨.normal, []⟩, p)
      else (⟨.dcsCollect, p⟩, [])

/-- TerminalQueryFilter::filter over a byte list, threading the filter. -/
def runFilter (f : QFilter) : List Nat → QFilter × List Nat
  | [] => (f, [])
  | b :: rest =>
      let s1 := qstep f b
      let s2 := runFilter s1.1 rest
      (s2.1, s1.2 ++ s2.2)

/-- Applying filter to chunks in order, with the same filter state carried across. -/
def runChunks (f : QFilter) : List (List Nat) → QFilter × List Nat
  | [] => (f, [])
  | c :: cs =>
      let s1 := runFilter f c
      let s2 := runChunks s1.1 cs
      (s2.1, s1.2 ++ s2.2)

/-- Output of filter followed by flush (flush emits the pending bytes). -/
def filterThenFlush (l : List Nat) : List Nat :=
  let r := runFilter initQ l
  r.2 ++ r.1.pending

@[simp] theorem runFilter_nil (f : QFilter) : runFilter f [] = (f, []) := rfl

theorem runFilter_cons (f : QFilter) (b : Nat) (rest : List Nat) :
    runFilter f (b :: rest) =
      ((runFilter (qstep f b).1 rest).1,
        (qstep f b).2 ++ (runFilter (qstep f b).1 rest).2) := rfl

theorem runFilter_append (f : QFilter) (x y : List Nat) :
    runFilter f (x ++ y) =
      ((runFilter (runFilter f x).1 y).1,
        (runFilter f x).2 ++ (runFilter (runFilter f x).1 y).2) := by
  induction x generalizing f with
  | nil => simp
  | cons b rest ih =>
      simp only [List.cons_append, runFilter_cons, ih, List.append_assoc]

/-- C6. Chunk-boundary agnosticism: running the filter over any chunking of a
stream, carrying the state across calls, gives the same output bytes and the
same final state (hence the same pending buffer) as one call on the whole
stream. -/
theorem c6_chunk_boundary_agnostic (f : QFilter) (cs : List (List Nat)) :
    runChunks f cs = runFilter f cs.flatten := by
  induction cs generalizing f with
  | nil => simp [runChunks]
  | cons c rest ih =>
      simp only [runChunks, List.flatten_cons, ih, runFilter_append]

/-! # The drop list of spec section 4.3

A second, spec-side definition for the refinement claim C2: the grammar of
recognized query sequences exactly as listed in the spec (CSI is ESC [, OSC is
ESC ], DCS is ESC P; parameters are decimal digit strings). The XTWINOPS form
CSI Ps t admits further semicolon-separated parameters after the first, which
alone is decisive, as the spec states. -/

/-- Nonempty string of ASCII decimal digits. -/
def DigitStr (ds : List Nat) : Prop := ds ≠ [] ∧ ∀ b ∈ ds, isDigit b = true

inductive ListedQuery : List Nat → Prop where
  | da (x : List Nat) (hx : x = [48] ∨ x = [62] ∨ x = [62, 48] ∨ x = [61]) :
      ListedQuery (27 :: 91 :: (x ++ [99]))
  | dsr (d : Nat) (hd : d = 53 ∨ d = 54) : ListedQuery [27, 91, d, 110]
  | cpr (ds : List Nat) (h : DigitStr ds) : ListedQuery (27 :: 91 :: 63 :: (ds ++ [110]))
  | kitty (ds : List Nat) (h : ds = [] ∨ DigitStr ds) :
      ListedQuery (27 :: 91 :: 63 :: (ds ++ [117]))
  | xtversion : ListedQuery [27, 91, 62, 113]
  | decrqm (ds : List Nat) (h : DigitStr ds) : ListedQuery (27 :: 91 :: (ds ++ [36, 112]))
  | decrqmPrivate (ds : List Nat) (h : DigitStr ds) :
      ListedQuery (27 :: 91 :: 63 :: (ds ++ [36, 112]))
  | winops (ds : List Nat) (h : DigitStr ds)
      (hv : natOfDigits ds ∈ ([11, 13, 14, 15, 16, 18, 19, 20, 21] : List Nat))
      (tail : List Nat)
      (ht : tail = [] ∨ ∃ rest2, tail = 59 :: rest2 ∧
        ∀ b ∈ rest2, isDigit b = true ∨ b = 59) :
      ListedQuery (27 :: 91 :: ((ds ++ tail) ++ [116]))
  | oscPropQuery (ds : List Nat) (h : DigitStr ds) (t : List Nat)
      (ht : t = [7] ∨ t = [27, 92]) :
      ListedQuery (27 :: 93 :: (ds ++ [59, 63] ++ t))
  | dcsQuery (c : Nat) (hc : c = 36 ∨ c = 43) (body : List Nat) (hb : ∀ b ∈ body, b ≠ 27) :
      ListedQuery (27 :: 80 :: c :: 113 :: (body ++ [27, 92]))

/-! Step characterizations of qstep used for the drop proof. -/

theorem isDigit_bounds (b : Nat) (h : isDigit b = true) : 48 ≤ b ∧ b ≤ 57 := by
  simpa [isDigit, Bool.and_eq_true, decide_eq_true_eq] using h

theorem qstep_normal_other (p : List Nat) (b : Nat) (h : b ≠ 27) :
    qstep ⟨.normal, p⟩ b = (⟨.normal, p⟩, [b]) := by
  simp [qstep, h]

theorem qstep_csi_digit (p : List Nat) (b : Nat) (h : isDigit b = true) :
    qstep ⟨.csi, p⟩ b = (⟨.csiParam, p ++ [b]⟩, []) := by
  have hb := isDigit_bounds b h
  simp only [qstep]
  rw [if_neg (by omega), if_neg (by omega), if_neg (by omega), if_neg (by omega), if_pos h]

theorem qstep_csiParam_digit (p : List Nat) (b : Nat) (h : isDigit b = true) :
    qstep ⟨.csiParam, p⟩ b = (⟨.csiParam, p ++ [b]⟩, []) := by
  simp only [qstep]
  rw [if_pos (by simp [h])]

theorem qstep_csiGt_digit (p : List Nat) (b : Nat) (h : isDigit b = true) :
    qstep ⟨.csiGt, p⟩ b = (⟨.csiGtParam, p ++ [b]⟩, []) := by
  have hb := isDigit_bounds b h
  simp only [qstep]
  rw [if_neg (by omega), if_neg (by omega), if_pos h]

theorem qstep_csiQuestion_digit (p : List Nat) (b : Nat) (h : isDigit b = true) :
    qstep ⟨.csiQuestion, p⟩ b = (⟨.csiQuestionParam, p ++ [b]⟩, []) := by
  have hb := isDigit_bounds b h
  simp only [qstep]
  rw [if_neg (by omega), if_pos h]

theorem qstep_csiQuestionParam_digit (p : List Nat) (b : Nat) (h : isDigit b = true) :
    qstep ⟨.csiQuestionParam, p⟩ b = (⟨.csiQuestionParam, p ++ [b]⟩, []) := by
  simp only [qstep]
  rw [if_pos (by simp [h])]

theorem qstep_osc_digit (p : List Nat) (b : Nat) (h : isDigit b = true) :
    qstep ⟨.osc, p⟩ b = (⟨.oscParam, p ++ [b]⟩, []) := by
  simp only [qstep]
  rw [if_pos h]

theorem qstep_oscParam_digit (p : List Nat) (b : Nat) (h : isDigit b = true) :
    qstep ⟨.oscParam, p⟩ b = (⟨.oscParam, p ++ [b]⟩, []) := by
  simp only [qstep]
  rw [if_pos h]

theorem qstep_dcsCollect_other (p : List Nat) (b : Nat) (h : b ≠ 27) :
    qstep ⟨.dcsCollect, p⟩ b = (⟨.dcsCollect, p ++ [b]⟩, []) := by
  simp [qstep, h]

/-! Runs of digit strings keep the collecting states. -/

theorem run_csiParam_digits (ds : List Nat) (h : ∀ b ∈ ds, isDigit b = true) :
    ∀ p, runFilter ⟨.csiParam, p⟩ ds = (⟨.csiParam, p ++ ds⟩, []) := by
  induction ds with
  | nil => intro p; simp
  | cons b rest ih =>
      intro p
      rw [runFilter_cons, qstep_csiParam_digit p b (h b (by simp))]
      rw [ih (fun x hx => h x (by simp [hx])) (p ++ [b])]
      simp

theorem qstep_csiParam_paramByte (p : List Nat) (b : Nat)
    (h : isDigit b = true ∨ b = 59) :
    qstep ⟨.csiParam, p⟩ b = (⟨.csiParam, p ++ [b]⟩, []) := by
  simp only [qstep]
  rcases h with h | h
  · rw [if_pos (by simp [h])]
  · subst h
    rw [if_pos (by simp)]

theorem run_csiParam_paramBytes (ds : List Nat)
    (h : ∀ b ∈ ds, isDigit b = true ∨ b = 59) :
    ∀ p, runFilter ⟨.csiParam, p⟩ ds = (⟨.csiParam, p ++ ds⟩, []) := by
  induction ds with
  | nil => intro p; simp
  | cons b rest ih =>
      intro p
      rw [runFilter_cons, qstep_csiParam_paramByte p b (h b (by simp))]
      rw [ih (fun x hx => h x (by simp [hx])) (p ++ [b])]
      simp

theorem run_csiQuestionParam_digits (ds : List Nat) (h : ∀ b ∈ ds, isDigit b = true) :
    ∀ p, runFilter ⟨.csiQuestionParam, p⟩ ds = (⟨.csiQuestionParam, p ++ ds⟩, []) := by
  induction ds with
  | nil => intro p; simp
  | cons b rest ih =>
      intro p
      rw [runFilter_cons, qstep_csiQuestionParam_digit p b (h b (by simp))]
      rw [ih (fun x hx => h x (by simp [hx])) (p ++ [b])]
      simp

theorem run_csiGtParam_digits (ds : List Nat) (h : ∀ b ∈ ds, isDigit b = true) :
    ∀ p, runFilter ⟨.csiGtParam, p⟩ ds = (⟨.csiGtParam, p ++ ds⟩, []) := by
  induction ds with
  | nil => intro p; simp
  | cons b rest ih =>
      intro p
      have hb := h b (by simp)
      rw [runFilter_cons]
      have hs : qstep ⟨.csiGtParam, p⟩ b = (⟨.csiGtParam, p ++ [b]⟩, []) := by
        simp only [qstep]
        rw [if_pos hb]
      rw [hs, ih (fun x hx => h x (by simp [hx])) (p ++ [b])]
      simp

theorem run_oscParam_digits (ds : List Nat) (h : ∀ b ∈ ds, isDigit b = true) :
    ∀ p, runFilter ⟨.oscParam, p⟩ ds = (⟨.oscParam, p ++ ds⟩, []) := by
  induction ds with
  | nil => intro p; simp
  | cons b rest ih =>
      intro p
      rw [runFilter_cons, qstep_oscParam_digit p b (h b (by simp))]
      rw [ih (fun x hx => h x (by simp [hx])) (p ++ [b])]
      simp

theorem run_dcsCollect_body (body : List Nat) (h : ∀ b ∈ body, b ≠ 27) :
    ∀ p, runFilter ⟨.dcsCollect, p⟩ body = (⟨.dcsCollect, p ++ body⟩, []) := by
  induction body with
  | nil => intro p; simp
  | cons b rest ih =>
      intro p
      rw [runFilter_cons, qstep_dcsCollect_other p b (h b (by simp))]
      rw [ih (fun x hx => h x (by simp [hx])) (p ++ [b])]
      simp

/-! Concrete-byte step facts with arbitrary pending buffer. -/

theorem runFilter_singleton (f : QFilter) (b : Nat) :
    runFilter f [b] = ((qstep f b).1, (qstep f b).2) := by
  rw [runFilter_cons]; simp

theorem runFilter_chain (f g h : QFilter) (x y ox oy : List Nat)
    (hx : runFilter f x = (g, ox)) (hy : runFilter g y = (h, oy)) :
    runFilter f (x ++ y) = (h, ox ++ oy) := by
  rw [runFilter_append, hx]
  simp [hy]

theorem qstep_csiQuestionParam_n (p : List Nat) :
    qstep ⟨.csiQuestionParam, p⟩ 110 = (⟨.normal, []⟩, []) := rfl

theorem qstep_csiQuestionParam_u (p : List Nat) :
    qstep ⟨.csiQuestionParam, p⟩ 117 = (⟨.normal, []⟩, []) := rfl

theorem qstep_csiQuestionParam_dollar (p : List Nat) :
    qstep ⟨.csiQuestionParam, p⟩ 36 = (⟨.csiQuestionParamDollar, p ++ [36]⟩, []) := rfl

theorem qstep_csiParam_dollar (p : List Nat) :
    qstep ⟨.csiParam, p⟩ 36 = (⟨.csiParamDollar, p ++ [36]⟩, []) := rfl

theorem qstep_csiParamDollar_p (p : List Nat) :
    qstep ⟨.csiParamDollar, p⟩ 112 = (⟨.normal, []⟩, []) := rfl

theorem qstep_csiQuestionParamDollar_p (p : List Nat) :
    qstep ⟨.csiQuestionParamDollar, p⟩ 112 = (⟨.normal, []⟩, []) := rfl

theorem qstep_csiQuestion_u (p : List Nat) :
    qstep ⟨.csiQuestion, p⟩ 117 = (⟨.normal, []⟩, []) := rfl

theorem qstep_oscParam_semi (p : List Nat) :
    qstep ⟨.oscParam, p⟩ 59 = (⟨.oscSemicolon, p ++ [59]⟩, []) := rfl

theorem qstep_oscSemicolon_q (p : List Nat) :
    qstep ⟨.oscSemicolon, p⟩ 63 = (⟨.oscQuery, p ++ [63]⟩, []) := rfl

theorem qstep_oscQuery_bel (p : List Nat) :
    qstep ⟨.oscQuery, p⟩ 7 = (⟨.normal, []⟩, []) := rfl

theorem qstep_oscQuery_esc (p : List Nat) :
    qstep ⟨.oscQuery, p⟩ 27 = (⟨.oscQuerySt, p ++ [27]⟩, []) := rfl

theorem qstep_oscQuerySt_bs (p : List Nat) :
    qstep ⟨.oscQuerySt, p⟩ 92 = (⟨.normal, []⟩, []) := rfl

theorem qstep_dcs_dollar (p : List Nat) :
    qstep ⟨.dcs, p⟩ 36 = (⟨.dcsCollect, p ++ [36]⟩, []) := rfl

theorem qstep_dcs_plus (p : List Nat) :
    qstep ⟨.dcs, p⟩ 43 = (⟨.dcsCollect, p ++ [43]⟩, []) := rfl

theorem qstep_dcsCollect_esc (p : List Nat) :
    qstep ⟨.dcsCollect, p⟩ 27 = (⟨.dcsEscape, p ++ [27]⟩, []) := rfl

theorem qstep_dcsEscape_bs_query (p : List Nat) (h : isDcsQuery (p ++ [92]) = true) :
    qstep ⟨.dcsEscape, p⟩ 92 = (⟨.normal, []⟩, []) := by
  simp [qstep, h]

theorem qstep_csiParam_t_query (p : List Nat) (h : isWindowQuery (p ++ [116]) = true) :
    qstep ⟨.csiParam, p⟩ 116 = (⟨.normal, []⟩, []) := by
  simp [qstep, h, isDigit]

theorem takeWhile_ne59_of_digits (ds : List Nat) (h : ∀ b ∈ ds, isDigit b = true) :
    ds.takeWhile (fun b => b ≠ 59) = ds := by
  induction ds with
  | nil => rfl
  | cons b rest ih =>
      have hb := isDigit_bounds b (h b (by simp))
      have h59 : ¬ b = 59 := by omega
      rw [List.takeWhile_cons_of_pos (by simp [h59])]
      rw [ih (fun x hx => h x (by simp [hx]))]

theorem takeWhile_ne59_digits_semi (ds rest2 : List Nat)
    (h : ∀ b ∈ ds, isDigit b = true) :
    (ds ++ 59 :: rest2).takeWhile (fun b => b ≠ 59) = ds := by
  induction ds with
  | nil =>
      rw [List.nil_append, List.takeWhile_cons_of_neg (by simp)]
  | cons b tl ih =>
      have hb := isDigit_bounds b (h b (by simp))
      have h59 : ¬ b = 59 := by omega
      rw [List.cons_append, List.takeWhile_cons_of_pos (by simp [h59])]
      rw [ih (fun x hx => h x (by simp [hx]))]

theorem parseU32_digits (ds : List Nat) (hne : ds ≠ []) (h : ∀ b ∈ ds, isDigit b = true)
    (hlt : natOfDigits ds < 4294967296) : parseU32 ds = some (natOfDigits ds) := by
  unfold parseU32
  rw [if_neg hne, if_pos (List.all_eq_true.mpr h), if_pos hlt]

theorem isWindowQuery_of (ds : List Nat) (hne : ds ≠ []) (hdig : ∀ b ∈ ds, isDigit b = true)
    (hv : natOfDigits ds ∈ ([11, 13, 14, 15, 16, 18, 19, 20, 21] : List Nat))
    (tail : List Nat)
    (ht : tail = [] ∨ ∃ rest2, tail = 59 :: rest2 ∧
      ∀ b ∈ rest2, isDigit b = true ∨ b = 59) :
    isWindowQuery (([27, 91] ++ (ds ++ tail)) ++ [116]) = true := by
  have hlen : 0 < ds.length := List.length_pos.mpr hne
  have hv9 : natOfDigits ds = 11 ∨ natOfDigits ds = 13 ∨ natOfDigits ds = 14 ∨
      natOfDigits ds = 15 ∨ natOfDigits ds = 16 ∨ natOfDigits ds = 18 ∨
      natOfDigits ds = 19 ∨ natOfDigits ds = 20 ∨ natOfDigits ds = 21 := by
    simpa using hv
  have hv21 : natOfDigits ds < 4294967296 := by
    rcases hv9 with h | h | h | h | h | h | h | h | h <;> omega
  unfold isWindowQuery
  rw [if_neg (by simp only [List.length_append, List.length_cons, List.length_nil]; omega)]
  have h2 : (((([27, 91] ++ (ds ++ tail)) ++ [116] : List Nat).drop 2).dropLast) =
      ds ++ tail := by
    have hd : (([27, 91] ++ (ds ++ tail)) ++ [116] : List Nat).drop 2 =
        (ds ++ tail) ++ [116] := by simp
    rw [hd, List.dropLast_concat]
  rw [h2]
  have h3 : (ds ++ tail).takeWhile (fun b => b ≠ 59) = ds := by
    rcases ht with h0 | ⟨rest2, hre, _⟩
    · subst h0
      rw [List.append_nil]
      exact takeWhile_ne59_of_digits ds hdig
    · subst hre
      exact takeWhile_ne59_digits_semi ds rest2 hdig
  rw [h3, parseU32_digits ds hne hdig hv21]
  rcases hv9 with h | h | h | h | h | h | h | h | h <;> rw [h] <;> decide

theorem isDcsQuery_of (c : Nat) (hc : c = 36 ∨ c = 43) (rest : List Nat) :
    isDcsQuery (27 :: 80 :: c :: rest ++ [92]) = true := by
  unfold isDcsQuery
  rw [if_neg (by simp only [List.length_cons, List.length_append, List.length_nil]; omega)]
  rcases hc with h | h <;> subst h <;> simp

/-- Every query sequence of the listed grammar is consumed whole by the filter,
emitting nothing, leaving the filter in the initial (Normal, empty-pending)
state. -/
theorem listed_query_dropped (qs : List Nat) (h : ListedQuery qs) :
    runFilter initQ qs = (initQ, []) := by
  cases h with
  | da x hx => rcases hx with h | h | h | h <;> subst h <;> decide
  | dsr d hd => rcases hd with h | h <;> subst h <;> decide
  | xtversion => decide
  | cpr ds h =>
      obtain ⟨hne, hdig⟩ := h
      cases ds with
      | nil => exact absurd rfl hne
      | cons d rest =>
          have hd := hdig d (by simp)
          have hrest : ∀ b ∈ rest, isDigit b = true := fun b hb => hdig b (by simp [hb])
          have e : (27 :: 91 :: 63 :: ((d :: rest) ++ [110])) =
              ([27, 91, 63] ++ [d]) ++ (rest ++ [110]) := by simp
          rw [e]
          have h1 : runFilter initQ ([27, 91, 63] ++ [d]) =
              (⟨.csiQuestionParam, [27, 91, 63, d]⟩, []) := by
            refine runFilter_chain _ ⟨.csiQuestion, [27, 91, 63]⟩ _ _ _ [] [] (by decide) ?_
            rw [runFilter_singleton, qstep_csiQuestion_digit _ d hd]; simp [initQ]
          have h2 : runFilter (⟨.csiQuestionParam, [27, 91, 63, d]⟩ : QFilter)
              (rest ++ [110]) = (initQ, []) := by
            refine runFilter_chain _ ⟨.csiQuestionParam, [27, 91, 63, d] ++ rest⟩ _ _ _ [] []
              (run_csiQuestionParam_digits rest hrest _) ?_
            rw [runFilter_singleton, qstep_csiQuestionParam_n]; simp [initQ]
          simpa using runFilter_chain _ _ _ _ _ _ _ h1 h2
  | kitty ds h =>
      rcases h with h | h
      · subst h; decide
      · obtain ⟨hne, hdig⟩ := h
        cases ds with
        | nil => exact absurd rfl hne
        | cons d rest =>
            have hd := hdig d (by simp)
            have hrest : ∀ b ∈ rest, isDigit b = true := fun b hb => hdig b (by simp [hb])
            have e : (27 :: 91 :: 63 :: ((d :: rest) ++ [117])) =
                ([27, 91, 63] ++ [d]) ++ (rest ++ [117]) := by simp
            rw [e]
            have h1 : runFilter initQ ([27, 91, 63] ++ [d]) =
                (⟨.csiQuestionParam, [27, 91, 63, d]⟩, []) := by
              refine runFilter_chain _ ⟨.csiQuestion, [27, 91, 63]⟩ _ _ _ [] [] (by decide) ?_
              rw [runFilter_singleton, qstep_csiQuestion_digit _ d hd]; simp [initQ]
            have h2 : runFilter (⟨.csiQuestionParam, [27, 91, 63, d]⟩ : QFilter)
                (rest ++ [117]) = (initQ, []) := by
              refine runFilter_chain _ ⟨.csiQuestionParam, [27, 91, 63, d] ++ rest⟩ _ _ _ [] []
                (run_csiQuestionParam_digits rest hrest _) ?_
              rw [runFilter_singleton, qstep_csiQuestionParam_u]; simp [initQ]
            simpa using runFilter_chain _ _ _ _ _ _ _ h1 h2
  | decrqm ds h =>
      obtain ⟨hne, hdig⟩ := h
      cases ds with
      | nil => exact absurd rfl hne
      | cons d rest =>
          have hd := hdig d (by simp)
          have hrest : ∀ b ∈ rest, isDigit b = true := fun b hb => hdig b (by simp [hb])
          have e : (27 :: 91 :: ((d :: rest) ++ [36, 112])) =
              ([27, 91] ++ [d]) ++ (rest ++ [36, 112]) := by simp
          rw [e]
          have h1 : runFilter initQ ([27, 91] ++ [d]) =
              (⟨.csiParam, [27, 91, d]⟩, []) := by
            refine runFilter_chain _ ⟨.csi, [27, 91]⟩ _ _ _ [] [] (by decide) ?_
            rw [runFilter_singleton, qstep_csi_digit _ d hd]; simp [initQ]
          have h2 : runFilter (⟨.csiParam, [27, 91, d]⟩ : QFilter)
              (rest ++ [36, 112]) = (initQ, []) := by
            refine runFilter_chain _ ⟨.csiParam, [27, 91, d] ++ rest⟩ _ _ _ [] []
              (run_csiParam_digits rest hrest _) ?_
            have e2 : ([36, 112] : List Nat) = [36] ++ [112] := rfl
            rw [e2]
            refine runFilter_chain _ ⟨.csiParamDollar, ([27, 91, d] ++ rest) ++ [36]⟩ _ _ _ [] []
              ?_ ?_
            · rw [runFilter_singleton, qstep_csiParam_dollar]
            · rw [runFilter_singleton, qstep_csiParamDollar_p]; simp [initQ]
          simpa using runFilter_chain _ _ _ _ _ _ _ h1 h2
  | decrqmPrivate ds h =>
      obtain ⟨hne, hdig⟩ := h
      cases ds with
      | nil => exact absurd rfl hne
      | cons d rest =>
          have hd := hdig d (by simp)
          have hrest : ∀ b ∈ rest, isDigit b = true := fun b hb => hdig b (by simp [hb])
          have e : (27 :: 91 :: 63 :: ((d :: rest) ++ [36, 112])) =
              ([27, 91, 63] ++ [d]) ++ (rest ++ [36, 112]) := by simp
          rw [e]
          have h1 : runFilter initQ ([27, 91, 63] ++ [d]) =
              (⟨.csiQuestionParam, [27, 91, 63, d]⟩, []) := by
            refine runFilter_chain _ ⟨.csiQuestion, [27, 91, 63]⟩ _ _ _ [] [] (by decide) ?_
            rw [runFilter_singleton, qstep_csiQuestion_digit _ d hd]; simp [initQ]
          have h2 : runFilter (⟨.csiQuestionParam, [27, 91, 63, d]⟩ : QFilter)
              (rest ++ [36, 112]) = (initQ, []) := by
            refine runFilter_chain _ ⟨.csiQuestionParam, [27, 91, 63, d] ++ rest⟩ _ _ _ [] []
              (run_csiQuestionParam_digits rest hrest _) ?_
            have e2 : ([36, 112] : List Nat) = [36] ++ [112] := rfl
            rw [e2]
            refine runFilter_chain _
              ⟨.csiQuestionParamDollar, ([27, 91, 63, d] ++ rest) ++ [36]⟩ _ _ _ [] [] ?_ ?_
            · rw [runFilter_singleton, qstep_csiQuestionParam_dollar]
            · rw [runFilter_singleton, qstep_csiQuestionParamDollar_p]; simp [initQ]
          simpa using runFilter_chain _ _ _ _ _ _ _ h1 h2
  | winops ds h hv tail ht =>
      obtain ⟨hne, hdig⟩ := h
      cases ds with
      | nil => exact absurd rfl hne
      | cons d rest =>
          have hd := hdig d (by simp)
          have hrest : ∀ b ∈ rest ++ tail, isDigit b = true ∨ b = 59 := by
            intro b hb
            rcases List.mem_append.mp hb with hb | hb
            · exact Or.inl (hdig b (by simp [hb]))
            · rcases ht with h0 | ⟨rest2, hre, hcontent⟩
              · subst h0
                simp at hb
              · subst hre
                rcases List.mem_cons.mp hb with hb | hb
                · exact Or.inr hb
                · exact hcontent b hb
          have e : (27 :: 91 :: (((d :: rest) ++ tail) ++ [116])) =
              ([27, 91] ++ [d]) ++ ((rest ++ tail) ++ [116]) := by simp
          rw [e]
          have h1 : runFilter initQ ([27, 91] ++ [d]) =
              (⟨.csiParam, [27, 91, d]⟩, []) := by
            refine runFilter_chain _ ⟨.csi, [27, 91]⟩ _ _ _ [] [] (by decide) ?_
            rw [runFilter_singleton, qstep_csi_digit _ d hd]; simp [initQ]
          have hwq : isWindowQuery (([27, 91, d] ++ (rest ++ tail)) ++ [116]) = true := by
            have e3 : ([27, 91, d] ++ (rest ++ tail) : List Nat) =
                [27, 91] ++ ((d :: rest) ++ tail) := by simp
            rw [e3]
            exact isWindowQuery_of (d :: rest) (by simp) hdig hv tail ht
          have h2 : runFilter (⟨.csiParam, [27, 91, d]⟩ : QFilter)
              ((rest ++ tail) ++ [116]) = (initQ, []) := by
            refine runFilter_chain _ ⟨.csiParam, [27, 91, d] ++ (rest ++ tail)⟩ _ _ _ [] []
              (run_csiParam_paramBytes (rest ++ tail) hrest _) ?_
            rw [runFilter_singleton, qstep_csiParam_t_query _ hwq]; simp [initQ]
          simpa using runFilter_chain _ _ _ _ _ _ _ h1 h2
  | oscPropQuery ds h t ht =>
      obtain ⟨hne, hdig⟩ := h
      cases ds with
      | nil => exact absurd rfl hne
      | cons d rest =>
          have hd := hdig d (by simp)
          have hrest : ∀ b ∈ rest, isDigit b = true := fun b hb => hdig b (by simp [hb])
          have e : (27 :: 93 :: (((d :: rest) ++ [59, 63]) ++ t)) =
              ([27, 93] ++ [d]) ++ ((rest ++ [59, 63]) ++ t) := by simp
          rw [e]
          have h1 : runFilter initQ ([27, 93] ++ [d]) =
              (⟨.oscParam, [27, 93, d]⟩, []) := by
            refine runFilter_chain _ ⟨.osc, [27, 93]⟩ _ _ _ [] [] (by decide) ?_
            rw [runFilter_singleton, qstep_osc_digit _ d hd]; simp [initQ]
          have h2 : runFilter (⟨.oscParam, [27, 93, d]⟩ : QFilter)
              ((rest ++ [59, 63]) ++ t) = (initQ, []) := by
            have h3 : runFilter (⟨.oscParam, [27, 93, d]⟩ : QFilter) (rest ++ [59, 63]) =
                (⟨.oscQuery, (([27, 93, d] ++ rest) ++ [59]) ++ [63]⟩, []) := by
              refine runFilter_chain _ ⟨.oscParam, [27, 93, d] ++ rest⟩ _ _ _ [] []
                (run_oscParam_digits rest hrest _) ?_
              have e2 : ([59, 63] : List Nat) = [59] ++ [63] := rfl
              rw [e2]
              refine runFilter_chain _ ⟨.oscSemicolon, ([27, 93, d] ++ rest) ++ [59]⟩ _ _ _ [] []
                ?_ ?_
              · rw [runFilter_singleton, qstep_oscParam_semi]
              · rw [runFilter_singleton, qstep_oscSemicolon_q]
            refine runFilter_chain _ _ _ _ _ [] [] h3 ?_
            rcases ht with h | h <;> subst h
            · rw [runFilter_singleton, qstep_oscQuery_bel]; simp [initQ]
            · have e4 : ([27, 92] : List Nat) = [27] ++ [92] := rfl
              rw [e4]
              refine runFilter_chain _
                ⟨.oscQuerySt, ((([27, 93, d] ++ rest) ++ [59]) ++ [63]) ++ [27]⟩ _ _ _ [] [] ?_ ?_
              · rw [runFilter_singleton, qstep_oscQuery_esc]
              · rw [runFilter_singleton, qstep_oscQuerySt_bs]; simp [initQ]
          simpa using runFilter_chain _ _ _ _ _ _ _ h1 h2
  | dcsQuery c hc body hb =>
      have e : (27 :: 80 :: c :: 113 :: (body ++ [27, 92])) =
          (([27, 80] ++ [c]) ++ ([113] ++ body)) ++ ([27] ++ [92]) := by simp
      rw [e]
      have h1 : runFilter initQ ([27, 80] ++ [c]) =
          (⟨.dcsCollect, [27, 80, c]⟩, []) := by
        refine runFilter_chain _ ⟨.dcs, [27, 80]⟩ _ _ _ [] [] (by decide) ?_
        rcases hc with h | h <;> subst h
        · rw [runFilter_singleton, qstep_dcs_dollar]; simp [initQ]
        · rw [runFilter_singleton, qstep_dcs_plus]; simp [initQ]
      have h2 : runFilter (⟨.dcsCollect, [27, 80, c]⟩ : QFilter) ([113] ++ body) =
          (⟨.dcsCollect, ([27, 80, c] ++ [113]) ++ body⟩, []) := by
        refine runFilter_chain _ ⟨.dcsCollect, [27, 80, c] ++ [113]⟩ _ _ _ [] [] ?_
          (run_dcsCollect_body body hb _)
        rw [runFilter_singleton, qstep_dcsCollect_other _ 113 (by decide)]
      have h12 : runFilter initQ (([27, 80] ++ [c]) ++ ([113] ++ body)) =
          (⟨.dcsCollect, ([27, 80, c] ++ [113]) ++ body⟩, []) := by
        simpa using runFilter_chain _ _ _ _ _ _ _ h1 h2
      have h3 : runFilter (⟨.dcsCollect, ([27, 80, c] ++ [113]) ++ body⟩ : QFilter)
          ([27] ++ [92]) = (initQ, []) := by
        refine runFilter_chain _
          ⟨.dcsEscape, ((([27, 80, c] ++ [113]) ++ body)) ++ [27]⟩ _ _ _ [] [] ?_ ?_
        · rw [runFilter_singleton, qstep_dcsCollect_esc]
        · rw [runFilter_singleton]
          have hq : isDcsQuery (((((([27, 80, c] ++ [113]) ++ body)) ++ [27]) ++ [92])) = true := by
            have e5 : ((((([27, 80, c] ++ [113]) ++ body)) ++ [27]) ++ [92] : List Nat) =
                27 :: 80 :: c :: ((113 :: body ++ [27]) ++ [92]) := by simp
            rw [e5]
            exact isDcsQuery_of c hc _
          rw [qstep_dcsEscape_bs_query _ hq]; simp [initQ]
      simpa using runFilter_chain _ _ _ _ _ _ _ h12 h3

/-! # Claim C2: counterexample and amended statement -/

/-- An input item: either a full listed query sequence or one plain byte. -/
inductive QItem where
  | query (qs : List Nat)
  | plain (b : Nat)

def QItem.bytes : QItem → List Nat
  | .query qs => qs
  | .plain b => [b]

def QItem.out : QItem → List Nat
  | .query _ => []
  | .plain b => [b]

def QItemOK : QItem → Prop
  | .query qs => ListedQuery qs
  | .plain b => b ≠ 27

def itemsBytes (items : List QItem) : List Nat := (items.map QItem.bytes).flatten

def itemsOut (items : List QItem) : List Nat := (items.map QItem.out).flatten

theorem item_run (it : QItem) (h : QItemOK it) :
    runFilter initQ it.bytes = (initQ, it.out) := by
  cases it with
  | query qs => exact listed_query_dropped qs h
  | plain b =>
      have hb : b ≠ 27 := h
      rw [QItem.bytes, QItem.out, runFilter_singleton]
      rw [show initQ = ⟨.normal, []⟩ from rfl, qstep_normal_other _ b hb]

theorem listed_query_starts_esc (qs : List Nat) (h : ListedQuery qs) :
    ∃ r, qs = 27 :: r := by
  cases h <;> exact ⟨_, rfl⟩

theorem containsSeq_cons27_eq_false (r l : List Nat) (h : 27 ∉ l) :
    containsSeq (27 :: r) l = false := by
  induction l with
  | nil => simp [containsSeq, findSub]
  | cons b rest ih =>
      have hb : ¬ b = 27 := fun e => h (by simp [e])
      have hrest : 27 ∉ rest := fun hx => h (List.mem_cons_of_mem _ hx)
      have hlw : ¬ (leadsWith (27 :: r) (b :: rest) = true) := by
        simp only [leadsWith, List.length_cons, List.take_succ_cons, decide_eq_true_eq]
        intro e
        exact hb (List.head_eq_of_cons_eq e)
      unfold containsSeq findSub
      rw [if_neg hlw]
      unfold containsSeq at ih
      have hr2 := ih hrest
      cases hf : findSub (27 :: r) rest with
      | none => simp
      | some v => rw [hf] at hr2; simp at hr2

theorem itemsOut_no_esc (items : List QItem) (h : ∀ it ∈ items, QItemOK it) :
    27 ∉ itemsOut items := by
  induction items with
  | nil => simp [itemsOut]
  | cons it rest ih =>
      have h1 := h it (by simp)
      have h2 : 27 ∉ itemsOut rest := ih (fun x hx => h x (by simp [hx]))
      unfold itemsOut
      simp only [List.map_cons, List.flatten_cons, List.mem_append]
      rintro (hc | hc)
      · cases it with
        | query qs => simp [QItem.out] at hc
        | plain b => simp [QItem.out] at hc; exact h1 hc.symm
      · exact h2 hc

/-- C2, amended: for every input byte stream that is a concatenation of
items, each item either a recognized query sequence from the drop list of
section 4.3 or a single byte other than ESC, the filter emits exactly the
non-query bytes in order (ending with empty pending, so flush adds nothing),
and no listed query sequence occurs anywhere in the output. The original
universally-quantified claim fails when a listed query is preceded by a stray
ESC byte; see the counterexample. -/
theorem c2_amended_decomposed_stream_filtered (items : List QItem)
    (h : ∀ it ∈ items, QItemOK it) :
    runFilter initQ (itemsBytes items) = (initQ, itemsOut items) ∧
      ∀ qs, ListedQuery qs → containsSeq qs (itemsOut items) = false := by
  constructor
  · induction items with
    | nil => simp [itemsBytes, itemsOut]
    | cons it rest ih =>
        have h1 := item_run it (h it (by simp))
        have h2 := ih (fun x hx => h x (by simp [hx]))
        unfold itemsBytes itemsOut
        simp only [List.map_cons, List.flatten_cons]
        exact runFilter_chain _ _ _ _ _ _ _ h1 h2
  · intro qs hq
    obtain ⟨r, hr⟩ := listed_query_starts_esc qs hq
    subst hr
    exact containsSeq_cons27_eq_false r _ (itemsOut_no_esc items h)

/-- C2, counterexample to the claim as stated: on the input
ESC ESC [ 5 n, the filter (with flush) outputs the input unchanged, and that
output contains the listed Device Status Report query ESC [ 5 n as a
contiguous subsequence: a byte stream exists whose filtered output still
contains every byte of a recognized query sequence of the drop list. -/
theorem c2_counterexample_nested_query_survives :
    ListedQuery [27, 91, 53, 110] ∧
      filterThenFlush [27, 27, 91, 53, 110] = [27, 27, 91, 53, 110] ∧
      containsSeq [27, 91, 53, 110] (filterThenFlush [27, 27, 91, 53, 110]) = true := by
  refine ⟨ListedQuery.dsr 53 (Or.inl rfl), by decide, by decide⟩

/-- Witness for the amended C2 at a concrete decomposition: the byte h, the
DSR query ESC [ 5 n, the multi-parameter XTWINOPS query ESC [ 18 ; 5 t, the
byte i. -/
theorem c2_amended_witness :
    runFilter initQ (itemsBytes
        [QItem.plain 104, QItem.query [27, 91, 53, 110],
          QItem.query [27, 91, 49, 56, 59, 53, 116], QItem.plain 105]) =
      (initQ, [104, 105]) := by
  have h := c2_amended_decomposed_stream_filtered
    [QItem.plain 104, QItem.query [27, 91, 53, 110],
      QItem.query [27, 91, 49, 56, 59, 53, 116], QItem.plain 105]
    (by
      intro it hit
      simp only [List.mem_cons, List.not_mem_nil, or_false] at hit
      rcases hit with h | h | h | h <;> subst h
      · exact (by decide : (104 : Nat) ≠ 27)
      · exact ListedQuery.dsr 53 (Or.inl rfl)
      · exact ListedQuery.winops [49, 56] ⟨by decide, by decide⟩ (by decide) [59, 53]
          (Or.inr ⟨[53], rfl, by decide⟩)
      · exact (by decide : (105 : Nat) ≠ 27))
  have e : itemsOut [QItem.plain 104, QItem.query [27, 91, 53, 110],
      QItem.query [27, 91, 49, 56, 59, 53, 116], QItem.plain 105] = [104, 105] := by decide
  rw [← e]
  exact h.1

/-! # Whitelist history filter (history_filter.rs)

history_filter.rs delegates parsing and re-encoding to the external termwiz
crate and contributes the classification tables. The classification functions
below are translated from the source; the parser and serializer model the
termwiz escape parser contract over a core action grammar (printable text, C0
control codes, CSI with parameter bytes and a final byte, two-byte ESC codes,
OSC strings, DCS strings), with canonical serializations. -/

inductive HAction where
  | print (c : Nat)
  | ctrl (c : Nat)
  | csi (params : List Nat) (final : Nat)
  | escCode (c : Nat)
  | osc (raw : List Nat)
  | dcs (raw : List Nat)
  deriving DecidableEq, Repr

inductive HClass where
  | whitelist | blacklist
  deriving DecidableEq, Repr

/-- classify_control from history_filter.rs restricted to C0 codes: the ten
formatting controls NUL BEL BS HT LF VT FF CR SO SI are whitelisted, every
other control (ENQ, the remaining C0 codes) is blacklisted. -/
def classifyCtrl (c : Nat) : HClass :=
  if c = 0 || c = 7 || c = 8 || c = 9 || c = 10 || c = 11 || c = 12 || c = 13 ||
      c = 14 || c = 15 then .whitelist
  else .blacklist

/-- classify_window from history_filter.rs composed with the xterm numbering
termwiz uses for CSI Ps t: report operations (11,13,14,15,16,18,19,20,21) are
blacklisted, window state and title-stack operations (1..10, 22, 23) are
whitelisted, anything else parses as unspecified and is blacklisted. -/
def classifyWindow (params : List Nat) : HClass :=
  match parseU32 (params.takeWhile (fun b => b ≠ 59)) with
  | some v =>
      if v = 11 || v = 13 || v = 14 || v = 15 || v = 16 || v = 18 || v = 19 ||
          v = 20 || v = 21 then .blacklist
      else if 1 ≤ v && v ≤ 10 || v = 22 || v = 23 then .whitelist
      else .blacklist
  | none => .blacklist

/-- classify_csi from history_filter.rs composed with the final byte termwiz
uses to subcategorize: m is SGR (whitelist), the cursor movement finals and
the edit finals are whitelisted, h and l are mode set/reset (blacklist),
c and n are device queries (blacklist), t is a window operation, everything
else is unspecified (blacklist). -/
def classifyCsi (params : List Nat) (final : Nat) : HClass :=
  if final = 109 then .whitelist
  else if final = 65 || final = 66 || final = 67 || final = 68 || final = 69 ||
      final = 70 || final = 71 || final = 72 || final = 102 then .whitelist
  else if final = 74 || final = 75 || final = 76 || final = 77 || final = 80 ||
      final = 88 then .whitelist
  else if final = 104 || final = 108 then .blacklist
  else if final = 99 || final = 110 then .blacklist
  else if final = 116 then classifyWindow params
  else .blacklist

/-- classify_esc from history_filter.rs for two-byte ESC sequences: save and
restore cursor (7, 8), index operations (D, E, M), tab set (H), keypad modes
(= and the normal keypad code), string terminator, full reset (c) are
whitelisted; single shifts (N, O) and every other code are blacklisted. -/
def classifyEsc (c : Nat) : HClass :=
  if c = 55 || c = 56 || c = 68 || c = 69 || c = 77 || c = 72 || c = 61 ||
      c = 62 || c = 92 || c = 99 then .whitelist
  else .blacklist

/-- classify_osc from history_filter.rs composed with termwiz OSC decoding for
the modelled numbers: 0, 1, 2 set titles (whitelist), 7 is the current working
directory (blacklist), everything else in the model is blacklisted. -/
def classifyOsc (raw : List Nat) : HClass :=
  if 59 ∈ raw then
    match parseU32 (raw.takeWhile (fun b => b ≠ 59)) with
    | some v => if v = 0 || v = 1 || v = 2 then .whitelist else .blacklist
    | none => .blacklist
  else .blacklist

/-- classify_action from history_filter.rs over the modelled action grammar. -/
def classifyH : HAction → HClass
  | .print _ => .whitelist
  | .ctrl c => classifyCtrl c
  | .csi params final => classifyCsi params final
  | .escCode c => classifyEsc c
  | .osc raw => classifyOsc raw
  | .dcs _ => .blacklist

def isSafeForHistory (a : HAction) : Bool := classifyH a = HClass.whitelist

/-- Parser modes of the modelled termwiz parser. -/
inductive HMode where
  | ground | esc
  | csiP (acc : List Nat)
  | oscP (acc : List Nat)
  | oscEsc (acc : List Nat)
  | dcsP (acc : List Nat)
  | dcsEsc (acc : List Nat)
  deriving DecidableEq, Repr

/-- One byte of the modelled termwiz parser. -/
def hstep (m : HMode) (b : Nat) : HMode × List HAction :=
  match m with
  | .ground =>
      if b = 27 then (.esc, [])
      else if b < 32 then (.ground, [.ctrl b])
      else (.ground, [.print b])
  | .esc =>
      if b = 91 then (.csiP [], [])
      else if b = 93 then (.oscP [], [])
      else if b = 80 then (.dcsP [], [])
      else (.ground, [.escCode b])
  | .csiP acc =>
      if 32 ≤ b ∧ b ≤ 63 then (.csiP (acc ++ [b]), [])
      else if 64 ≤ b ∧ b ≤ 126 then (.ground, [.csi acc b])
      else (.ground, [])
  | .oscP acc =>
      if b = 7 then (.ground, [.osc acc])
      else if b = 27 then (.oscEsc acc, [])
      else (.oscP (acc ++ [b]), [])
  | .oscEsc acc =>
      if b = 92 then (.ground, [.osc acc])
      else (.ground, [])
  | .dcsP acc =>
      if b = 27 then (.dcsEsc acc, [])
      else (.dcsP (acc ++ [b]), [])
  | .dcsEsc acc =>
      if b = 92 then (.ground, [.dcs acc])
      else (.dcsP (acc ++ [27, b]), [])

def hrun (m : HMode) : List Nat → HMode × List HAction
  | [] => (m, [])
  | b :: rest =>
      let s1 := hstep m b
      let s2 := hrun s1.1 rest
      (s2.1, s1.2 ++ s2.2)

/-- parse_as_vec from a fresh parser; a trailing incomplete sequence stays
pending inside the parser and yields no action. -/
def parseH (l : List Nat) : List HAction := (hrun .ground l).2

/-- Canonical serialization of an action (the termwiz Display instance). -/
def serializeH : HAction → List Nat
  | .print c => [c]
  | .ctrl c => [c]
  | .csi params final => 27 :: 91 :: (params ++ [final])
  | .escCode c => [27, c]
  | .osc raw => 27 :: 93 :: (raw ++ [7])
  | .dcs raw => 27 :: 80 :: (raw ++ [27, 92])

def serializeAll (la : List HAction) : List Nat := (la.map serializeH).flatten

/-- HistoryFilter::filter from history_filter.rs: parse into actions, keep
only whitelisted ones, re-encode. -/
def historyFilterModel (input : List Nat) : List Nat :=
  serializeAll ((parseH input).filter isSafeForHistory)

@[simp] theorem hrun_nil (m : HMode) : hrun m [] = (m, []) := rfl

theorem hrun_cons (m : HMode) (b : Nat) (rest : List Nat) :
    hrun m (b :: rest) =
      ((hrun (hstep m b).1 rest).1, (hstep m b).2 ++ (hrun (hstep m b).1 rest).2) := rfl

theorem hrun_append (m : HMode) (x y : List Nat) :
    hrun m (x ++ y) =
      ((hrun (hrun m x).1 y).1, (hrun m x).2 ++ (hrun (hrun m x).1 y).2) := by
  induction x generalizing m with
  | nil => simp
  | cons b rest ih =>
      simp only [List.cons_append, hrun_cons, ih, List.append_assoc]

/-- Well-formedness of actions as produced by the parser. -/
def WFH : HAction → Prop
  | .print c => 32 ≤ c
  | .ctrl c => c < 32 ∧ c ≠ 27
  | .csi params final => (∀ b ∈ params, 32 ≤ b ∧ b ≤ 63) ∧ 64 ≤ final ∧ final ≤ 126
  | .escCode c => c ≠ 91 ∧ c ≠ 93 ∧ c ≠ 80
  | .osc raw => ∀ b ∈ raw, b ≠ 7 ∧ b ≠ 27
  | .dcs _ => True

/-- Invariant on the parser mode accumulators. -/
def MInvH : HMode → Prop
  | .ground => True
  | .esc => True
  | .csiP acc => ∀ b ∈ acc, 32 ≤ b ∧ b ≤ 63
  | .oscP acc => ∀ b ∈ acc, b ≠ 7 ∧ b ≠ 27
  | .oscEsc acc => ∀ b ∈ acc, b ≠ 7 ∧ b ≠ 27
  | .dcsP _ => True
  | .dcsEsc _ => True

theorem hstep_preserves (m : HMode) (b : Nat) (hm : MInvH m) :
    MInvH (hstep m b).1 ∧ ∀ a ∈ (hstep m b).2, WFH a := by
  cases m with
  | ground =>
      by_cases h27 : b = 27
      · simp [hstep, h27, MInvH]
      · by_cases hc : b < 32
        · simp only [hstep, if_neg h27, if_pos hc, MInvH, WFH]
          exact ⟨trivial, by intro a ha; simp at ha; subst ha; exact ⟨hc, h27⟩⟩
        · simp only [hstep, if_neg h27, if_neg hc, MInvH, WFH]
          exact ⟨trivial, by intro a ha; simp at ha; subst ha; omega⟩
  | esc =>
      by_cases h1 : b = 91
      · simp [hstep, h1, MInvH]
      · by_cases h2 : b = 93
        · simp [hstep, h1, h2, MInvH]
        · by_cases h3 : b = 80
          · simp [hstep, h1, h2, h3, MInvH]
          · simp [hstep, h1, h2, h3, MInvH, WFH]
  | csiP acc =>
      by_cases h1 : 32 ≤ b ∧ b ≤ 63
      · simp only [hstep, if_pos h1, MInvH]
        refine ⟨?_, by simp⟩
        intro x hx
        rcases List.mem_append.mp hx with h | h
        · exact hm x h
        · simp at h; subst h; exact h1
      · by_cases h2 : 64 ≤ b ∧ b ≤ 126
        · simp only [hstep, if_neg h1, if_pos h2, MInvH, WFH]
          exact ⟨trivial, by intro a ha; simp at ha; subst ha; exact ⟨hm, h2⟩⟩
        · simp [hstep, if_neg h1, if_neg h2, MInvH]
  | oscP acc =>
      by_cases h1 : b = 7
      · simp only [hstep, h1, if_pos rfl, MInvH, WFH]
        exact ⟨trivial, by intro a ha; simp at ha; subst ha; exact hm⟩
      · by_cases h2 : b = 27
        · simp [hstep, h1, h2, MInvH]
          exact hm
        · simp only [hstep, if_neg h1, if_neg h2, MInvH]
          refine ⟨?_, by simp⟩
          intro x hx
          rcases List.mem_append.mp hx with h | h
          · exact hm x h
          · simp at h; subst h; exact ⟨h1, h2⟩
  | oscEsc acc =>
      by_cases h1 : b = 92
      · simp only [hstep, h1, if_pos rfl, MInvH, WFH]
        exact ⟨trivial, by intro a ha; simp at ha; subst ha; exact hm⟩
      · simp [hstep, h1, MInvH]
  | dcsP acc =>
      by_cases h1 : b = 27
      · simp [hstep, h1, MInvH]
      · simp [hstep, h1, MInvH]
  | dcsEsc acc =>
      by_cases h1 : b = 92
      · simp [hstep, h1, MInvH, WFH]
      · simp [hstep, h1, MInvH]

theorem hrun_wf (l : List Nat) (m : HMode) (hm : MInvH m) :
    MInvH (hrun m l).1 ∧ ∀ a ∈ (hrun m l).2, WFH a := by
  induction l generalizing m with
  | nil => simp [hm]
  | cons b rest ih =>
      obtain ⟨hm1, hw1⟩ := hstep_preserves m b hm
      obtain ⟨hm2, hw2⟩ := ih (hstep m b).1 hm1
      rw [hrun_cons]
      refine ⟨hm2, ?_⟩
      intro a ha
      rcases List.mem_append.mp ha with h | h
      · exact hw1 a h
      · exact hw2 a h

theorem parseH_wf (l : List Nat) : ∀ a ∈ parseH l, WFH a :=
  (hrun_wf l .ground trivial).2

theorem hrun_csiP_params (params : List Nat) (h : ∀ b ∈ params, 32 ≤ b ∧ b ≤ 63) :
    ∀ acc, hrun (.csiP acc) params = (.csiP (acc ++ params), []) := by
  induction params with
  | nil => intro acc; simp
  | cons b rest ih =>
      intro acc
      have hb := h b (by simp)
      rw [hrun_cons]
      simp only [hstep, if_pos hb]
      rw [ih (fun x hx => h x (by simp [hx])) (acc ++ [b])]
      simp

theorem hrun_oscP_raw (raw : List Nat) (h : ∀ b ∈ raw, b ≠ 7 ∧ b ≠ 27) :
    ∀ acc, hrun (.oscP acc) raw = (.oscP (acc ++ raw), []) := by
  induction raw with
  | nil => intro acc; simp
  | cons b rest ih =>
      intro acc
      have hb := h b (by simp)
      rw [hrun_cons]
      simp only [hstep, if_neg hb.1, if_neg hb.2]
      rw [ih (fun x hx => h x (by simp [hx])) (acc ++ [b])]
      simp

/-- A well-formed whitelisted action re-parses from its serialization to
exactly itself, returning the parser to ground. -/
theorem hrun_serialize_roundtrip (a : HAction) (hwf : WFH a)
    (hsafe : isSafeForHistory a = true) :
    hrun .ground (serializeH a) = (.ground, [a]) := by
  cases a with
  | print c =>
      have hc : 32 ≤ c := hwf
      rw [serializeH, hrun_cons]
      simp only [hstep, if_neg (by omega : ¬ c = 27), if_neg (by omega : ¬ c < 32)]
      simp
  | ctrl c =>
      obtain ⟨hc, h27⟩ := hwf
      rw [serializeH, hrun_cons]
      simp only [hstep, if_neg h27, if_pos hc]
      simp
  | csi params final =>
      obtain ⟨hp, hf1, hf2⟩ := hwf
      have e : serializeH (.csi params final) = ([27, 91] ++ params) ++ [final] := by
        simp [serializeH]
      rw [e, hrun_append, hrun_append]
      have h1 : hrun .ground [27, 91] = (.csiP [], []) := rfl
      rw [h1]
      simp only
      rw [hrun_csiP_params params hp []]
      simp only
      rw [hrun_cons]
      simp only [hstep, if_neg (by omega : ¬ (32 ≤ final ∧ final ≤ 63)),
        if_pos (⟨hf1, hf2⟩ : 64 ≤ final ∧ final ≤ 126)]
      simp
  | escCode c =>
      obtain ⟨h1, h2, h3⟩ := hwf
      rw [serializeH]
      have e : ([27, c] : List Nat) = [27] ++ [c] := rfl
      rw [e, hrun_append]
      have hh : hrun .ground [27] = (.esc, []) := rfl
      rw [hh]
      simp only
      rw [hrun_cons]
      simp only [hstep, if_neg h1, if_neg h2, if_neg h3]
      simp
  | osc raw =>
      have hp : ∀ b ∈ raw, b ≠ 7 ∧ b ≠ 27 := hwf
      have e : serializeH (.osc raw) = ([27, 93] ++ raw) ++ [7] := by
        simp [serializeH]
      rw [e, hrun_append, hrun_append]
      have h1 : hrun .ground [27, 93] = (.oscP [], []) := rfl
      rw [h1]
      simp only
      rw [hrun_oscP_raw raw hp []]
      simp only
      rw [hrun_cons]
      simp only [hstep, if_pos rfl]
      simp
  | dcs raw =>
      exact absurd hsafe (by simp [isSafeForHistory, classifyH])

theorem hrun_serializeAll (la : List HAction)
    (h : ∀ a ∈ la, WFH a ∧ isSafeForHistory a = true) :
    hrun .ground (serializeAll la) = (.ground, la) := by
  induction la with
  | nil => simp [serializeAll]
  | cons a rest ih =>
      obtain ⟨hwf, hsafe⟩ := h a (by simp)
      have h2 := ih (fun x hx => h x (by simp [hx]))
      unfold serializeAll
      simp only [List.map_cons, List.flatten_cons]
      rw [hrun_append, hrun_serialize_roundtrip a hwf hsafe]
      simp only
      unfold serializeAll at h2
      rw [h2]
      simp

/-- C7. For every input byte stream, re-parsing the whitelist history filter
output yields only actions classified Whitelist: the filter never emits the
serialization of a blacklisted action. -/
theorem c7_reparse_all_whitelisted (input : List Nat) :
    (parseH (historyFilterModel input)).all isSafeForHistory = true := by
  have hmem : ∀ a ∈ (parseH input).filter isSafeForHistory,
      WFH a ∧ isSafeForHistory a = true := by
    intro a ha
    exact ⟨parseH_wf input a (List.mem_of_mem_filter ha), List.of_mem_filter ha⟩
  have e : parseH (historyFilterModel input) =
      (parseH input).filter isSafeForHistory := by
    have h2 := hrun_serializeAll _ hmem
    show (hrun .ground (historyFilterModel input)).2 = _
    unfold historyFilterModel
    rw [h2]
  rw [e, List.all_eq_true]
  intro a ha
  exact (hmem a ha).2

/-! # Ring-based line history (component B)

Modelled from the spec: line_buffer.rs is not among the provided sources. The
spec (section 4.2) gives the contract: push_bytes appends arbitrary bytes,
splits on LF for line accounting, and evicts whole oldest lines while the line
count exceeds max_lines; bytes without a trailing LF count as an open tail
line; clear empties; append_all dumps every stored byte oldest first. -/

def lineCount (d : List Nat) : Nat :=
  d.count 10 + (if d ≠ [] ∧ d.getLast? ≠ some 10 then 1 else 0)

def dropFirstLine (d : List Nat) : List Nat := (d.dropWhile (fun b => b ≠ 10)).drop 1

def evictLines (maxLines : Nat) : Nat → List Nat → List Nat
  | 0, d => d
  | fuel + 1, d =>
      if lineCount d ≤ maxLines then d
      else evictLines maxLines fuel (dropFirstLine d)

structure LineBuffer where
  maxLines : Nat
  data : List Nat
  deriving DecidableEq, Repr

def LineBuffer.pushBytes (lb : LineBuffer) (bytes : List Nat) : LineBuffer :=
  let d := lb.data ++ bytes
  { lb with data := evictLines lb.maxLines (d.length + 1) d }

def LineBuffer.clear (lb : LineBuffer) : LineBuffer := { lb with data := [] }

def LineBuffer.appendAll (lb : LineBuffer) (out : List Nat) : List Nat := out ++ lb.data

theorem pushBytes_of_le (lb : LineBuffer) (bytes : List Nat)
    (h : lineCount (lb.data ++ bytes) ≤ lb.maxLines) :
    lb.pushBytes bytes = { lb with data := lb.data ++ bytes } := by
  unfold LineBuffer.pushBytes evictLines
  simp only [if_pos h]

/-! # Proxy orchestrator (proxy.rs)

The orchestrator state mirrors the fields of struct Proxy that the claims
touch. The vt100 parser is external; the model keeps the byte log fed to it as
the screen state, and the serializers below stand in for the vt100 snapshot
serializers (only which serializer gets selected matters to the claims). Time
is an abstract Nat passed in for Instant::now. -/

structure ProxyState where
  history : LineBuffer
  vtBytes : List Nat
  vtPrevScreen : Option (List Nat)
  lastOutputTime : Option Nat
  lastRenderTime : Option Nat
  syncBuffer : List Nat
  inSyncBlock : Bool
  inLookbackMode : Bool
  inAlternateScreen : Bool
  vtRenderPending : Bool
  lookbackCache : List Nat
  lookbackInputBuffer : List Nat
  lookbackSequence : List Nat
  lookbackKeyName : List Nat
  deriving DecidableEq, Repr

inductive RenderKind where
  | full | diff
  deriving DecidableEq, Repr

inductive PEvent where
  | writeStdout (bytes : List Nat)
  | render (kind : RenderKind) (bytes : List Nat)
  | ptyWrite (bytes : List Nat)
  | ptySetSize
  | writeBanner (key : List Nat)
  deriving DecidableEq, Repr

/-- Model of vt100 Screen::contents_formatted (full absolute serialization). -/
def contentsFormatted (screen : List Nat) : List Nat := screen

/-- Model of vt100 Screen::contents_diff against a previous snapshot. -/
def contentsDiff (cur prev : List Nat) : List Nat := cur.drop prev.length

/-- Model of vt100 Screen::cursor_state_formatted. -/
def cursorStateFormatted (screen : List Nat) : List Nat := []

/-- Proxy::render_vt_screen: sync-start, then the full snapshot on a first
render or the diff against the stored previous snapshot, then cursor state,
then sync-end; stores the new snapshot and clears the pending flag. -/
def renderVtScreen (s : ProxyState) (now : Nat) : ProxyState × PEvent :=
  match s.vtPrevScreen with
  | some prev =>
      let out := ((SYNC_START ++ contentsDiff s.vtBytes prev) ++
        cursorStateFormatted s.vtBytes) ++ SYNC_END
      ({s with
          vtPrevScreen := some s.vtBytes
          vtRenderPending := false
          lastRenderTime := some now},
        .render .diff out)
  | none =>
      let out := ((SYNC_START ++ contentsFormatted s.vtBytes) ++
        cursorStateFormatted s.vtBytes) ++ SYNC_END
      ({s with
          vtPrevScreen := some s.vtBytes
          vtRenderPending := false
          lastRenderTime := some now},
        .render .full out)

/-- Finder combination in Proxy::find_alt_screen_enter. -/
def findAltEnter (d : List Nat) : Option Nat :=
  match findSub ALT_SCREEN_ENTER d, findSub ALT_SCREEN_ENTER_LEGACY d with
  | some a, some b => some (min a b)
  | some a, none => some a
  | none, some b => some b
  | none, none => none

/-- Finder combination in Proxy::find_alt_screen_exit. -/
def findAltExit (d : List Nat) : Option Nat :=
  match findSub ALT_SCREEN_EXIT d, findSub ALT_SCREEN_EXIT_LEGACY d with
  | some a, some b => some (min a b)
  | some a, none => some a
  | none, some b => some b
  | none, none => none

def altScreenEnterLen (d : List Nat) : Nat :=
  if leadsWith ALT_SCREEN_ENTER d then ALT_SCREEN_ENTER.length
  else ALT_SCREEN_ENTER_LEGACY.length

def altScreenExitLen (d : List Nat) : Nat :=
  if leadsWith ALT_SCREEN_EXIT d then ALT_SCREEN_EXIT.length
  else ALT_SCREEN_EXIT_LEGACY.length

theorem altScreenEnterLen_pos (d : List Nat) : 0 < altScreenEnterLen d := by
  unfold altScreenEnterLen
  split <;> decide

theorem altScreenExitLen_pos (d : List Nat) : 0 < altScreenExitLen d := by
  unfold altScreenExitLen
  split <;> decide

theorem findAltEnter_nil : findAltEnter [] = none := rfl

theorem findAltExit_nil : findAltExit [] = none := rfl

theorem findAltEnter_ne_nil (d : List Nat) (p : Nat) (h : findAltEnter d = some p) :
    d ≠ [] := by
  intro e
  subst e
  rw [findAltEnter_nil] at h
  exact Option.noConfusion h

theorem findAltExit_ne_nil (d : List Nat) (p : Nat) (h : findAltExit d = some p) :
    d ≠ [] := by
  intro e
  subst e
  rw [findAltExit_nil] at h
  exact Option.noConfusion h

/-- History part of Proxy::flush_sync_block_to_history: if the sync buffer
contains both a clear-screen and a cursor-home the history is cleared and
re-seeded with clear+home, then the buffer is appended. -/
def flushedHistory (h : LineBuffer) (buf : List Nat) : LineBuffer :=
  let isFullRedraw := containsSeq CLEAR_SCREEN buf && containsSeq CURSOR_HOME buf
  let h1 := if isFullRedraw then
      ((LineBuffer.clear h).pushBytes CLEAR_SCREEN).pushBytes CURSOR_HOME
    else h
  h1.pushBytes buf

/-- Proxy::flush_sync_block_to_history on the orchestrator state. -/
def flushSyncBlockToHistory (s : ProxyState) : ProxyState :=
  { s with history := flushedHistory s.history s.syncBuffer, syncBuffer := [] }

mutual

/-- Proxy::process_output_alt_screen. -/
def processOutputAltScreen (s : ProxyState) (d : List Nat) (now : Nat) :
    ProxyState × List PEvent :=
  match hexit : findAltExit d with
  | some p =>
      let seqLen := altScreenExitLen (d.drop p)
      let s1 := { s with inAlternateScreen := false, vtPrevScreen := none }
      let r := renderVtScreen s1 now
      let remaining := d.drop (p + seqLen)
      let evs := [PEvent.writeStdout (d.take p),
        PEvent.writeStdout ((d.drop p).take seqLen), r.2]
      if remaining ≠ [] ∧ (findAltEnter remaining).isSome then
        let r2 := processOutputCheckAltOnly r.1 remaining now
        (r2.1, evs ++ r2.2)
      else (r.1, evs)
  | none => (s, [PEvent.writeStdout d])
termination_by d.length
decreasing_by
  simp only [List.length_drop]
  have hne := findAltExit_ne_nil d p hexit
  have hpos : 0 < d.length := List.length_pos.mpr hne
  have hlen := altScreenExitLen_pos (d.drop p)
  omega

/-- Proxy::process_output_check_alt_only. -/
def processOutputCheckAltOnly (s : ProxyState) (d : List Nat) (now : Nat) :
    ProxyState × List PEvent :=
  match henter : findAltEnter d with
  | some p =>
      let seqLen := altScreenEnterLen (d.drop p)
      let s1 := { s with inAlternateScreen := true }
      let r := processOutputAltScreen s1 (d.drop (p + seqLen)) now
      (r.1, PEvent.writeStdout ((d.drop p).take seqLen) :: r.2)
  | none => (s, [])
termination_by d.length
decreasing_by
  simp only [List.length_drop]
  have hne := findAltEnter_ne_nil d p henter
  have hpos : 0 < d.length := List.length_pos.mpr hne
  have hlen := altScreenEnterLen_pos (d.drop p)
  omega

end

/-- The scanning loop of Proxy::process_output_inner over the remaining data:
alt-screen enter has highest precedence, then sync-end while inside a sync
block, then sync-start, else plain history append. -/
def scanLoop (s : ProxyState) (d : List Nat) (now : Nat) : ProxyState × List PEvent :=
  if hd : d = [] then (s, [])
  else
    match henter : findAltEnter d with
    | some p =>
        let s1 := if s.inSyncBlock then
            flushSyncBlockToHistory
              { s with syncBuffer := s.syncBuffer ++ d, inSyncBlock := false }
          else { s with history := s.history.pushBytes d }
        let s2 := { s1 with inAlternateScreen := true }
        let seqLen := altScreenEnterLen (d.drop p)
        let r := processOutputAltScreen s2 (d.drop (p + seqLen)) now
        (r.1, PEvent.writeStdout ((d.drop p).take seqLen) :: r.2)
    | none =>
        if s.inSyncBlock then
          match findSub SYNC_END d with
          | some idx =>
              let s1 := flushSyncBlockToHistory
                { s with
                  syncBuffer := (s.syncBuffer ++ d.take idx) ++ SYNC_END
                  inSyncBlock := false }
              scanLoop s1 (d.drop (idx + SYNC_END.length)) now
          | none => ({ s with syncBuffer := s.syncBuffer ++ d }, [])
        else
          match findSub SYNC_START d with
          | some idx =>
              let s1 := { s with
                history := if 0 < idx then s.history.pushBytes (d.take idx) else s.history
                inSyncBlock := true
                syncBuffer := SYNC_START }
              scanLoop s1 (d.drop (idx + SYNC_START.length)) now
          | none => ({ s with history := s.history.pushBytes d }, [])
termination_by d.length
decreasing_by
  all_goals
    simp only [List.length_drop]
    have hpos : 0 < d.length := List.length_pos.mpr hd
    simp only [SYNC_END, SYNC_START, List.length_cons, List.length_nil]
    omega

/-- Proxy::process_output_inner. -/
def processOutputInner (s : ProxyState) (d : List Nat) (feedVt : Bool) (now : Nat) :
    ProxyState × List PEvent :=
  if s.inAlternateScreen then
    let s1 := if feedVt then
        { s with vtBytes := s.vtBytes ++ d, history := s.history.pushBytes d }
      else s
    processOutputAltScreen s1 d now
  else if s.inLookbackMode then
    ({ s with lookbackCache := s.lookbackCache ++ d }, [])
  else
    let s1 := if feedVt then { s with vtBytes := s.vtBytes ++ d } else s
    let s2 := { s1 with vtRenderPending := true, lastOutputTime := some now }
    scanLoop s2 d now

/-- Proxy::process_output (feed_vt = true). -/
def processOutput (s : ProxyState) (d : List Nat) (now : Nat) : ProxyState × List PEvent :=
  processOutputInner s d true now

/-! # Key-binding matcher and stdin path (Proxy::process_input) -/

inductive SequenceMatch where
  | complete | ongoing | noMatch
  deriving DecidableEq, Repr

/-- Keep the last n elements, as Vec::drain(..excess). -/
def listTakeRight (n : Nat) (l : List Nat) : List Nat := l.drop (l.length - n)

/-- Whether a is an initial segment of b, as Rust b.starts_with(a). -/
def isPre (a b : List Nat) : Bool := decide (b.take a.length = a)

/-- Proxy::check_sequence_match: push the byte into a copy of the buffer,
trim it to the sequence length, then classify: equal is Complete, an initial
segment of the sequence is Partial, anything else is None. -/
def checkSequenceMatch (b : Nat) (buffer seq : List Nat) : SequenceMatch :=
  let t := listTakeRight seq.length (buffer ++ [b])
  if t = seq then .complete
  else if isPre t seq then .ongoing
  else .noMatch

/-- One stdin byte of the matcher bookkeeping in Proxy::process_input:
the classification of the byte and the lookback_input_buffer afterwards
(pushed and trimmed, then cleared on Complete, and cleared on None when the
buffer is not an initial segment of the sequence). -/
def matcherStep (seq buffer : List Nat) (b : Nat) : SequenceMatch × List Nat :=
  let act := checkSequenceMatch b buffer seq
  let t := listTakeRight seq.length (buffer ++ [b])
  match act with
  | .complete => (act, [])
  | .ongoing => (act, t)
  | .noMatch => (act, if isPre t seq then t else [])

/-- Fold of matcherStep over a byte stream, collecting classifications. -/
def matcherRun (seq buffer : List Nat) : List Nat → List SequenceMatch × List Nat
  | [] => ([], buffer)
  | b :: rest =>
      let r := matcherStep seq buffer b
      let r2 := matcherRun seq r.2 rest
      (r.1 :: r2.1, r2.2)

/-- Proxy::enter_lookback_mode: set the mode, clear the cache and the pending
render, then clear the screen, home the cursor, dump the history, and print
the exit banner. -/
def enterLookbackMode (s : ProxyState) : ProxyState × List PEvent :=
  let s1 := { s with
    inLookbackMode := true
    lookbackCache := []
    vtRenderPending := false }
  (s1, [PEvent.writeStdout CLEAR_SCREEN, PEvent.writeStdout CURSOR_HOME,
    PEvent.writeStdout (s.history.appendAll []), PEvent.writeBanner s.lookbackKeyName])

/-- Proxy::exit_lookback_mode: leave the mode, replay the cached output
through the normal output path, reset the sync block, forward the window size
(which also clears the stored snapshot), and force a full render. -/
def exitLookbackMode (s : ProxyState) (now : Nat) : ProxyState × List PEvent :=
  let s1 := { s with inLookbackMode := false, lookbackCache := [] }
  let r := if s.lookbackCache ≠ [] then processOutput s1 s.lookbackCache now
    else (s1, [])
  let s2 := { r.1 with inSyncBlock := false, syncBuffer := [] }
  let s3 := { s2 with vtPrevScreen := none }
  let r2 := renderVtScreen { s3 with vtPrevScreen := none } now
  (r2.1, (r.2 ++ [PEvent.ptySetSize]) ++ [r2.2])

/-- One stdin byte of Proxy::process_input (the non-alt-screen loop body). -/
def processInputByte (s : ProxyState) (b : Nat) (now : Nat) : ProxyState × List PEvent :=
  if s.inLookbackMode ∧ b = 3 then
    exitLookbackMode { s with lookbackInputBuffer := [] } now
  else
    let r := matcherStep s.lookbackSequence s.lookbackInputBuffer b
    let s1 := { s with lookbackInputBuffer := r.2 }
    match r.1 with
    | .complete =>
        if s.inLookbackMode then exitLookbackMode s1 now
        else enterLookbackMode s1
    | .ongoing => (s1, [])
    | .noMatch =>
        if s.inLookbackMode then (s1, []) else (s1, [PEvent.ptyWrite [b]])

/-- Proxy::process_input: in the alternate screen the whole chunk is written
to the PTY verbatim; otherwise each byte runs through the matcher loop. -/
def processInput (s : ProxyState) (d : List Nat) (now : Nat) : ProxyState × List PEvent :=
  if s.inAlternateScreen then (s, [PEvent.ptyWrite d])
  else
    d.foldl (fun acc b =>
      let r := processInputByte acc.1 b now
      (r.1, acc.2 ++ r.2)) (s, [])

/-! # Claim C9 -/

/-- C9. While in lookback mode (and not in the alternate screen, the modes are
mutually exclusive and the alternate-screen branch is checked first),
processing a chunk of child output appends exactly those bytes to
lookback_cache, leaves the line history, the VT byte stream, and every other
orchestrator field unchanged, and emits no output events. -/
theorem c9_lookback_frame (s : ProxyState) (d : List Nat) (feedVt : Bool) (now : Nat)
    (hl : s.inLookbackMode = true) (ha : s.inAlternateScreen = false) :
    processOutputInner s d feedVt now =
      ({ s with lookbackCache := s.lookbackCache ++ d }, []) := by
  unfold processOutputInner
  simp [hl, ha]

def lookbackExampleState : ProxyState where
  history := ⟨100000, CLEAR_SCREEN ++ CURSOR_HOME⟩
  vtBytes := []
  vtPrevScreen := none
  lastOutputTime := none
  lastRenderTime := none
  syncBuffer := []
  inSyncBlock := false
  inLookbackMode := true
  inAlternateScreen := false
  vtRenderPending := false
  lookbackCache := [72]
  lookbackInputBuffer := []
  lookbackSequence := [30]
  lookbackKeyName := []

theorem c9_witness :
    processOutputInner lookbackExampleState [65, 66] true 5 =
      ({ lookbackExampleState with lookbackCache := [72, 65, 66] }, []) := by
  have h := c9_lookback_frame lookbackExampleState [65, 66] true 5 rfl rfl
  simpa using h

/-! # Claim C10 -/

/-- C10. While in the alternate screen, every stdin chunk is written verbatim
to the PTY as a single write, with no key-binding matching, no change to the
match buffer, and no lookback transition. -/
theorem c10_alt_screen_input_passthrough (s : ProxyState) (d : List Nat) (now : Nat)
    (h : s.inAlternateScreen = true) :
    processInput s d now = (s, [PEvent.ptyWrite d]) := by
  unfold processInput
  simp [h]

def altScreenExampleState : ProxyState where
  history := ⟨100000, CLEAR_SCREEN ++ CURSOR_HOME⟩
  vtBytes := []
  vtPrevScreen := none
  lastOutputTime := none
  lastRenderTime := none
  syncBuffer := []
  inSyncBlock := false
  inLookbackMode := false
  inAlternateScreen := true
  vtRenderPending := false
  lookbackCache := []
  lookbackInputBuffer := []
  lookbackSequence := [30]
  lookbackKeyName := []

theorem c10_witness :
    processInput altScreenExampleState [30, 3, 65] 0 =
      (altScreenExampleState, [PEvent.ptyWrite [30, 3, 65]]) :=
  c10_alt_screen_input_passthrough altScreenExampleState [30, 3, 65] 0 rfl

/-! # Claim C4 -/

/-- C4, as stated, is false: with the two-byte sequence K = 1 2 and buffer
holding 1, the byte 1 classifies as None and the matcher clears the buffer,
although the pushed-and-trimmed buffer 1 1 has the nonempty suffix 1 (its
drop 1) which is an initial segment of K; consequently the stream 1 1 2,
which ends with the full K, never classifies Complete. -/
theorem c4_counterexample_overlap_cleared :
    (matcherStep [49, 50] [49] 49).1 = SequenceMatch.noMatch ∧
      (matcherStep [49, 50] [49] 49).2 = [] ∧
      listTakeRight 2 ([49] ++ [49]) = [49, 49] ∧
      [49, 49].drop 1 = [49] ∧
      isPre [49] [49, 50] = true ∧
      (matcherRun [49, 50] [] [49, 49, 50]).1 =
        [SequenceMatch.ongoing, SequenceMatch.noMatch, SequenceMatch.noMatch] := by
  decide

/-- C4, amended: whenever a stdin byte classifies as None, the matcher clears
the match buffer unconditionally; the retention guard in the code (the whole
pushed-and-trimmed buffer being an initial segment of K) can never hold when
the classification is None, so an overlapping completion of K is not
detected. -/
theorem c4_amended_none_always_clears (seq buffer : List Nat) (b : Nat)
    (h : (matcherStep seq buffer b).1 = SequenceMatch.noMatch) :
    (matcherStep seq buffer b).2 = [] := by
  unfold matcherStep checkSequenceMatch at h ⊢
  by_cases h1 : listTakeRight seq.length (buffer ++ [b]) = seq
  · simp [h1] at h
  · by_cases h2 : isPre (listTakeRight seq.length (buffer ++ [b])) seq = true
    · simp [h1, h2] at h
    · simp [h1, h2]

theorem c4_amended_witness :
    (matcherStep [49, 50] [49] 49).2 = [] :=
  c4_amended_none_always_clears [49, 50] [49] 49 (by decide)

/-! # Claim C5 -/

/-- C5. On sync-end, the history is cleared and re-seeded with clear-screen
then cursor-home before the sync buffer is appended if and only if the sync
buffer contains both the CLEAR_SCREEN bytes and the CURSOR_HOME bytes;
in particular a block containing CLEAR_SCREEN without CURSOR_HOME leaves the
existing history in place. The line-count hypotheses say eviction does not
trigger (the default limit is 100000 lines). -/
theorem c5_full_redraw_iff_clear_and_home (s : ProxyState)
    (h1 : lineCount (s.history.data ++ s.syncBuffer) ≤ s.history.maxLines)
    (h2 : lineCount ((CLEAR_SCREEN ++ CURSOR_HOME) ++ s.syncBuffer) ≤ s.history.maxLines)
    (h3 : lineCount CLEAR_SCREEN ≤ s.history.maxLines)
    (h4 : lineCount (CLEAR_SCREEN ++ CURSOR_HOME) ≤ s.history.maxLines) :
    (flushSyncBlockToHistory s).history.data =
      (if containsSeq CLEAR_SCREEN s.syncBuffer && containsSeq CURSOR_HOME s.syncBuffer
       then (CLEAR_SCREEN ++ CURSOR_HOME) ++ s.syncBuffer
       else s.history.data ++ s.syncBuffer) ∧
      (flushSyncBlockToHistory s).syncBuffer = [] := by
  refine ⟨?_, rfl⟩
  unfold flushSyncBlockToHistory flushedHistory
  by_cases hc : (containsSeq CLEAR_SCREEN s.syncBuffer &&
      containsSeq CURSOR_HOME s.syncBuffer) = true
  · simp only [hc, if_true, if_pos]
    have e1 : (LineBuffer.clear s.history).pushBytes CLEAR_SCREEN =
        { s.history with data := CLEAR_SCREEN } := by
      rw [pushBytes_of_le _ _ (by simpa [LineBuffer.clear] using h3)]
      simp [LineBuffer.clear]
    rw [e1]
    have e2 : ({ s.history with data := CLEAR_SCREEN } : LineBuffer).pushBytes CURSOR_HOME =
        { s.history with data := CLEAR_SCREEN ++ CURSOR_HOME } := by
      rw [pushBytes_of_le _ _ (by simpa using h4)]
    rw [e2]
    rw [pushBytes_of_le _ _ (by simpa using h2)]
  · rw [Bool.not_eq_true] at hc
    simp only [hc, Bool.false_eq_true, if_false]
    rw [pushBytes_of_le _ _ h1]

def syncExampleState : ProxyState where
  history := ⟨100000, [104, 105, 10]⟩
  vtBytes := []
  vtPrevScreen := none
  lastOutputTime := none
  lastRenderTime := none
  syncBuffer := (SYNC_START ++ (CLEAR_SCREEN ++ CURSOR_HOME)) ++ SYNC_END
  inSyncBlock := true
  inLookbackMode := false
  inAlternateScreen := false
  vtRenderPending := false
  lookbackCache := []
  lookbackInputBuffer := []
  lookbackSequence := [30]
  lookbackKeyName := []

theorem c5_witness :
    (flushSyncBlockToHistory syncExampleState).history.data =
      (CLEAR_SCREEN ++ CURSOR_HOME) ++
        ((SYNC_START ++ (CLEAR_SCREEN ++ CURSOR_HOME)) ++ SYNC_END) := by
  have h := c5_full_redraw_iff_clear_and_home syncExampleState
    (by decide) (by decide) (by decide) (by decide)
  have e : (containsSeq CLEAR_SCREEN syncExampleState.syncBuffer &&
      containsSeq CURSOR_HOME syncExampleState.syncBuffer) = true := by decide
  rw [e] at h
  simpa using h.1

/-! # Claim C8 -/

def firstRenderKind : List PEvent → Option RenderKind
  | [] => none
  | PEvent.render k _ :: _ => some k
  | _ :: rest => firstRenderKind rest

/-- C8. Whenever the orchestrator is in the alternate screen and the chunk
contains an alt-screen exit, the render issued by the exit handler is the
first render of the resulting event sequence and it is produced from the
full-screen snapshot serialization: the stored previous snapshot is cleared
before rendering, so the differential serializer is never chosen. -/
theorem c8_first_render_after_alt_exit_full (s : ProxyState) (d : List Nat)
    (now p : Nat) (ha : s.inAlternateScreen = true) (hexit : findAltExit d = some p) :
    firstRenderKind (processOutputAltScreen s d now).2 = some RenderKind.full := by
  unfold processOutputAltScreen
  split
  · next p2 heq =>
      by_cases hrem : (d.drop (p2 + altScreenExitLen (d.drop p2)) ≠ [] ∧
          (findAltEnter (d.drop (p2 + altScreenExitLen (d.drop p2)))).isSome)
      · simp only [if_pos hrem]
        simp [renderVtScreen, firstRenderKind]
      · simp only [if_neg hrem]
        simp [renderVtScreen, firstRenderKind]
  · next heq =>
      rw [heq] at hexit
      exact Option.noConfusion hexit

def altExitExampleState : ProxyState where
  history := ⟨100000, CLEAR_SCREEN ++ CURSOR_HOME⟩
  vtBytes := [104, 105]
  vtPrevScreen := some [104]
  lastOutputTime := none
  lastRenderTime := none
  syncBuffer := []
  inSyncBlock := false
  inLookbackMode := false
  inAlternateScreen := true
  vtRenderPending := false
  lookbackCache := []
  lookbackInputBuffer := []
  lookbackSequence := [30]
  lookbackKeyName := []

theorem c8_witness :
    firstRenderKind (processOutputAltScreen altExitExampleState ALT_SCREEN_EXIT 0).2 =
      some RenderKind.full :=
  c8_first_render_after_alt_exit_full altExitExampleState ALT_SCREEN_EXIT 0 0 rfl
    (by decide)

/-! # Claim C3 -/

theorem renderVtScreen_fields (s : ProxyState) (now : Nat) :
    (renderVtScreen s now).1.history = s.history ∧
      (renderVtScreen s now).1.inSyncBlock = s.inSyncBlock ∧
      (renderVtScreen s now).1.syncBuffer = s.syncBuffer := by
  unfold renderVtScreen
  cases s.vtPrevScreen <;> simp

/-- The alt-screen output path never touches the history, the sync flag, or
the sync buffer (joint statement for the two mutually recursive functions). -/
theorem altScreen_preserves_aux (n : Nat) : ∀ d : List Nat, d.length ≤ n →
    ∀ s now,
    ((processOutputAltScreen s d now).1.history = s.history ∧
      (processOutputAltScreen s d now).1.inSyncBlock = s.inSyncBlock ∧
      (processOutputAltScreen s d now).1.syncBuffer = s.syncBuffer) ∧
    ((processOutputCheckAltOnly s d now).1.history = s.history ∧
      (processOutputCheckAltOnly s d now).1.inSyncBlock = s.inSyncBlock ∧
      (processOutputCheckAltOnly s d now).1.syncBuffer = s.syncBuffer) := by
  induction n with
  | zero =>
      intro d hd s now
      have hnil : d = [] := List.length_eq_zero.mp (Nat.le_zero.mp hd)
      subst hnil
      constructor
      · unfold processOutputAltScreen
        split
        · next p heq => rw [findAltExit_nil] at heq; exact Option.noConfusion heq
        · simp
      · unfold processOutputCheckAltOnly
        split
        · next p heq => rw [findAltEnter_nil] at heq; exact Option.noConfusion heq
        · simp
  | succ n ih =>
      intro d hd s now
      constructor
      · unfold processOutputAltScreen
        split
        · next p heq =>
            have hne := findAltExit_ne_nil d p heq
            have hpos : 0 < d.length := List.length_pos.mpr hne
            have hseq := altScreenExitLen_pos (d.drop p)
            have hlt : (d.drop (p + altScreenExitLen (d.drop p))).length ≤ n := by
              simp only [List.length_drop]
              omega
            have hrf := renderVtScreen_fields
              { s with inAlternateScreen := false, vtPrevScreen := none } now
            by_cases hrem : (d.drop (p + altScreenExitLen (d.drop p)) ≠ [] ∧
                (findAltEnter (d.drop (p + altScreenExitLen (d.drop p)))).isSome)
            · simp only [if_pos hrem]
              have hrec := (ih (d.drop (p + altScreenExitLen (d.drop p))) hlt
                (renderVtScreen
                  { s with inAlternateScreen := false, vtPrevScreen := none } now).1 now).2
              refine ⟨?_, ?_, ?_⟩
              · rw [hrec.1, hrf.1]
              · rw [hrec.2.1, hrf.2.1]
              · rw [hrec.2.2, hrf.2.2]
            · simp only [if_neg hrem]
              exact ⟨hrf.1, hrf.2.1, hrf.2.2⟩
        · simp
      · unfold processOutputCheckAltOnly
        split
        · next p heq =>
            have hne := findAltEnter_ne_nil d p heq
            have hpos : 0 < d.length := List.length_pos.mpr hne
            have hseq := altScreenEnterLen_pos (d.drop p)
            have hlt : (d.drop (p + altScreenEnterLen (d.drop p))).length ≤ n := by
              simp only [List.length_drop]
              omega
            have hrec := (ih (d.drop (p + altScreenEnterLen (d.drop p))) hlt
              { s with inAlternateScreen := true } now).1
            exact ⟨hrec.1, hrec.2.1, hrec.2.2⟩
        · simp
  
theorem processOutputAltScreen_preserves (s : ProxyState) (d : List Nat) (now : Nat) :
    (processOutputAltScreen s d now).1.history = s.history ∧
      (processOutputAltScreen s d now).1.inSyncBlock = s.inSyncBlock ∧
      (processOutputAltScreen s d now).1.syncBuffer = s.syncBuffer :=
  (altScreen_preserves_aux d.length d (Nat.le_refl _) s now).1

/-- Shared content lemma: an alt-screen enter seen while inside a sync block
makes the orchestrator append the whole remaining chunk to the sync buffer,
flush the buffer to history, and leave the sync block. -/
theorem processOutputInner_alt_enter_in_sync (s : ProxyState) (d : List Nat)
    (now p : Nat) (hs : s.inSyncBlock = true) (ha : s.inAlternateScreen = false)
    (hl : s.inLookbackMode = false) (hp : findAltEnter d = some p) :
    (processOutputInner s d true now).1.history =
      flushedHistory s.history (s.syncBuffer ++ d) ∧
      (processOutputInner s d true now).1.inSyncBlock = false ∧
      (processOutputInner s d true now).1.syncBuffer = [] := by
  have hdne : d ≠ [] := findAltEnter_ne_nil d p hp
  unfold processOutputInner
  simp only [ha, hl, Bool.false_eq_true, if_false, if_true]
  unfold scanLoop
  rw [dif_neg hdne]
  split
  · next p2 heq =>
      simp only [hs, if_true, if_pos]
      refine ⟨?_, ?_, ?_⟩
      · rw [(processOutputAltScreen_preserves _ _ _).1]
        rfl
      · rw [(processOutputAltScreen_preserves _ _ _).2.1]
        rfl
      · rw [(processOutputAltScreen_preserves _ _ _).2.2]
        rfl
  · next heq =>
      rw [heq] at hp
      exact Option.noConfusion hp

def c3ExampleState : ProxyState where
  history := ⟨100000, CLEAR_SCREEN ++ CURSOR_HOME⟩
  vtBytes := []
  vtPrevScreen := none
  lastOutputTime := none
  lastRenderTime := none
  syncBuffer := SYNC_START ++ [88, 89]
  inSyncBlock := true
  inLookbackMode := false
  inAlternateScreen := false
  vtRenderPending := false
  lookbackCache := []
  lookbackInputBuffer := []
  lookbackSequence := [30]
  lookbackKeyName := []

/-- C3, as stated, is false: from a sync block whose buffer has accumulated
the bytes X Y, processing a chunk that is exactly the alt-screen enter
sequence puts X Y into the line history (the sync buffer is flushed to
history, not discarded). -/
theorem c3_counterexample_sync_buffer_flushed :
    containsSeq [88, 89]
        (processOutputInner c3ExampleState ALT_SCREEN_ENTER true 0).1.history.data = true ∧
      containsSeq [88, 89] c3ExampleState.history.data = false := by
  have h := processOutputInner_alt_enter_in_sync c3ExampleState ALT_SCREEN_ENTER 0 0
    rfl rfl rfl (by decide)
  refine ⟨?_, by decide⟩
  rw [h.1]
  decide

/-- C3, amended: whenever the orchestrator observes an alt-screen enter while
inside a sync block, the whole remaining chunk is appended to the sync
buffer, the buffer is flushed to the line history (with the usual full-redraw
check), and the sync block ends with an empty sync buffer; the accumulated
bytes are not discarded. -/
theorem c3_amended_alt_enter_flushes_sync (s : ProxyState) (d : List Nat)
    (now p : Nat) (hs : s.inSyncBlock = true) (ha : s.inAlternateScreen = false)
    (hl : s.inLookbackMode = false) (hp : findAltEnter d = some p) :
    (processOutputInner s d true now).1.history =
      flushedHistory s.history (s.syncBuffer ++ d) ∧
      (processOutputInner s d true now).1.inSyncBlock = false ∧
      (processOutputInner s d true now).1.syncBuffer = [] :=
  processOutputInner_alt_enter_in_sync s d now p hs ha hl hp

theorem c3_amended_witness :
    (processOutputInner c3ExampleState ALT_SCREEN_ENTER true 0).1.history =
      flushedHistory c3ExampleState.history (c3ExampleState.syncBuffer ++ ALT_SCREEN_ENTER) :=
  (c3_amended_alt_enter_flushes_sync c3ExampleState ALT_SCREEN_ENTER 0 0
    rfl rfl rfl (by decide)).1

/-! # Claim C1 -/

/-- On a chunk with no alt-screen enter and no sync-start, outside any sync
block, the scan loop appends the chunk itself to the line history. -/
theorem scanLoop_plain (s : ProxyState) (d : List Nat) (now : Nat) (hd : d ≠ [])
    (hs : s.inSyncBlock = false) (he : findAltEnter d = none)
    (hss : findSub SYNC_START d = none) :
    scanLoop s d now = ({ s with history := s.history.pushBytes d }, []) := by
  unfold scanLoop
  rw [dif_neg hd]
  split
  · next p heq => rw [heq] at he; exact Option.noConfusion he
  · next heq =>
      simp only [hs, Bool.false_eq_true, if_false]
      split
      · next idx heq2 => rw [heq2] at hss; exact Option.noConfusion hss
      · rfl

/-- The orchestrator in normal mode appends the raw chunk bytes to history
(no whitelist filtering happens anywhere on this path). -/
theorem processOutputInner_normal (s : ProxyState) (d : List Nat) (now : Nat)
    (ha : s.inAlternateScreen = false) (hl : s.inLookbackMode = false)
    (hd : d ≠ []) (hs : s.inSyncBlock = false) (he : findAltEnter d = none)
    (hss : findSub SYNC_START d = none) :
    (processOutputInner s d true now).1.history = s.history.pushBytes d := by
  unfold processOutputInner
  simp only [ha, hl, Bool.false_eq_true, if_false, if_true]
  rw [scanLoop_plain
    ({ s with
        vtBytes := s.vtBytes ++ d
        lastOutputTime := some now
        inLookbackMode := false
        inAlternateScreen := false
        vtRenderPending := true }) d now hd hs he hss]

def c1ExampleState : ProxyState where
  history := ⟨100000, CLEAR_SCREEN ++ CURSOR_HOME⟩
  vtBytes := []
  vtPrevScreen := none
  lastOutputTime := none
  lastRenderTime := none
  syncBuffer := []
  inSyncBlock := false
  inLookbackMode := false
  inAlternateScreen := false
  vtRenderPending := false
  lookbackCache := []
  lookbackInputBuffer := []
  lookbackSequence := [30]
  lookbackKeyName := []

/-- C1 is violated by the code: for the chunk ESC [ ? 1004 h (enable focus
reporting, a blacklisted mode-set), the orchestrator outside lookback mode
appends the raw unfiltered bytes to the line history, while the whitelist
history filter output for that chunk is empty. process_output_inner never
invokes HistoryFilter. -/
theorem c1_history_receives_raw_bytes_not_filtered :
    (processOutputInner c1ExampleState [27, 91, 63, 49, 48, 48, 52, 104]
        true 0).1.history.data =
      (CLEAR_SCREEN ++ CURSOR_HOME) ++ [27, 91, 63, 49, 48, 48, 52, 104] ∧
      historyFilterModel [27, 91, 63, 49, 48, 48, 52, 104] = [] ∧
      ([27, 91, 63, 49, 48, 48, 52, 104] : List Nat) ≠ [] := by
  refine ⟨?_, by decide, by decide⟩
  rw [processOutputInner_normal _ _ _ rfl rfl (by decide) rfl (by decide) (by decide)]
  decide
